import Mathlib

/-!
# prometheus-demo: the on-demand collector and the request simulator of `main.go`

A shallow embedding of `src/main.go`.

* `float64` values are modelled by the rational number they denote; the conversion
  `float64(x)` and the division of two `float64` are the correctly rounded operations
  of binary64 (round to nearest, ties to even, 53-bit significand).  All numbers the
  program converts are machine integers and quotients of machine integers, far inside
  the exponent range of binary64, so overflow and subnormals do not arise.
* A channel that is only sent to is modelled by the list of the values sent so far.
* A panic is modelled by `Except.error`.
-/

namespace PrometheusDemo

/-! ## binary64 arithmetic -/

/-- Round a rational to the nearest integer, ties going to the even neighbour. -/
def roundHalfEven (q : ℚ) : ℤ :=
  let f := ⌊q⌋
  let r := q - f
  if r < 1 / 2 then f
  else if 1 / 2 < r then f + 1
  else if f % 2 = 0 then f else f + 1

/-- The Go conversion `float64(x)`: the binary64 number nearest to `q`
(53-bit significand, ties to even), as the rational it denotes. -/
def float64 (q : ℚ) : ℚ :=
  if q = 0 then 0
  else
    let e := Int.log 2 |q|
    let ulp : ℚ := 2 ^ (e - 52)
    roundHalfEven (q / ulp) * ulp

/-- The Go quotient `x / y` of two `float64` values with `y` nonzero: the exact quotient,
rounded to binary64. -/
def float64Div (x y : ℚ) : ℚ := float64 (x / y)

/-! ## The part of the Prometheus client library used by `main.go` -/

/-- A `prometheus.Desc` as built by `prometheus.NewDesc`: fully qualified name, help
text, variable label names and constant labels. -/
structure Desc where
  fqName : String
  help : String
  variableLabels : List String
  constLabels : List (String × String)
  deriving DecidableEq, Repr

/-- The Go constructor `prometheus.NewDesc(fqName, help, variableLabels, constLabels)`;
a `nil` slice or map is the empty list. -/
def NewDesc (fqName help : String) (variableLabels : List String)
    (constLabels : List (String × String)) : Desc :=
  { fqName := fqName, help := help, variableLabels := variableLabels,
    constLabels := constLabels }

/-- The Go enumeration `prometheus.ValueType`. -/
inductive ValueType where
  | CounterValue
  | GaugeValue
  | UntypedValue
  deriving DecidableEq, Repr

/-- A constant metric as built by `prometheus.MustNewConstMetric`: one sample. -/
structure Metric where
  desc : Desc
  valType : ValueType
  val : ℚ
  labelValues : List String
  deriving DecidableEq

/-- Modelled from the spec: `prometheus.MustNewConstMetric` belongs to the client
library and is not under src/.  By the spec, all samples under one descriptor must
supply exactly that descriptor's label set; the library call panics when the number
of label values differs from the number of label names of the descriptor. -/
def MustNewConstMetric (desc : Desc) (valueType : ValueType) (value : ℚ)
    (labelValues : List String) : Except String Metric :=
  if labelValues.length = desc.variableLabels.length then
    .ok { desc := desc, valType := valueType, val := value, labelValues := labelValues }
  else
    .error "inconsistent label cardinality"

/-! ## The runtime read by `Collect` -/

/-- The fields of `runtime.MemStats` read by `Collect` (each a `uint64`). -/
structure MemStats where
  HeapAlloc : ℕ
  HeapSys : ℕ
  HeapIdle : ℕ
  deriving DecidableEq, Repr

/-- What one call of `Collect` reads from the Go runtime and the wall clock, one field per
call, in call order: `memStats` is the result of `runtime.ReadMemStats`, `NumGoroutine1`
the result of the first call of `runtime.NumGoroutine()` (for the load factor),
`NumCPU` the result of `runtime.NumCPU()` (at least 1), `NumGoroutine2` the result of
the second call of `runtime.NumGoroutine()` (for the goroutine count; goroutines may
start or end between the two calls), and `Unix` the result of `time.Now().Unix()`
(an `int64`, negative for a clock reading before 1970). -/
structure RuntimeState where
  memStats : MemStats
  NumGoroutine1 : ℕ
  NumCPU : ℕ+
  NumGoroutine2 : ℕ
  Unix : ℤ

/-! ## `ServiceMetricsCollector` -/

/-- The Go struct `ServiceMetricsCollector`. -/
structure ServiceMetricsCollector where
  systemLoadDesc : Desc
  memoryUsageDesc : Desc
  lastProcessedDesc : Desc
  goroutinesDesc : Desc
  deriving DecidableEq, Repr

/-- The Go function `NewServiceMetricsCollector`. -/
def NewServiceMetricsCollector : ServiceMetricsCollector :=
  { systemLoadDesc :=
      NewDesc "system_load_factor" "Current system load factor" ["component"] []
    memoryUsageDesc :=
      NewDesc "system_memory_usage_bytes" "Current memory usage in bytes" ["type"] []
    lastProcessedDesc :=
      NewDesc "last_processed_timestamp" "Timestamp of the last processed request" [] []
    goroutinesDesc :=
      NewDesc "system_goroutines_count" "Number of goroutines currently running" [] [] }

/-- The Go method `Describe`: four sends on the channel `ch`. -/
def ServiceMetricsCollector.Describe (c : ServiceMetricsCollector) (ch : List Desc) :
    List Desc :=
  let ch := ch ++ [c.systemLoadDesc]
  let ch := ch ++ [c.memoryUsageDesc]
  let ch := ch ++ [c.lastProcessedDesc]
  let ch := ch ++ [c.goroutinesDesc]
  ch

/-- The Go method `Collect`: reads the memory statistics, then builds and sends six
constant gauge metrics on the channel `ch`.  `runtime.NumGoroutine()` is called twice,
once for the load factor and once for the goroutine count. -/
def ServiceMetricsCollector.Collect (c : ServiceMetricsCollector) (rt : RuntimeState)
    (ch : List Metric) : Except String (List Metric) := do
  let memStats := rt.memStats
  let m ← MustNewConstMetric c.memoryUsageDesc .GaugeValue
    (float64 memStats.HeapAlloc) ["heap_alloc"]
  let ch := ch ++ [m]
  let m ← MustNewConstMetric c.memoryUsageDesc .GaugeValue
    (float64 memStats.HeapSys) ["heap_sys"]
  let ch := ch ++ [m]
  let m ← MustNewConstMetric c.memoryUsageDesc .GaugeValue
    (float64 memStats.HeapIdle) ["heap_idle"]
  let ch := ch ++ [m]
  let m ← MustNewConstMetric c.systemLoadDesc .GaugeValue
    (float64Div (float64 rt.NumGoroutine1) (float64 rt.NumCPU)) ["cpu_load"]
  let ch := ch ++ [m]
  let m ← MustNewConstMetric c.goroutinesDesc .GaugeValue
    (float64 rt.NumGoroutine2) []
  let ch := ch ++ [m]
  let m ← MustNewConstMetric c.lastProcessedDesc .GaugeValue
    (float64 rt.Unix) []
  let ch := ch ++ [m]
  return ch

/-! ## The instruments declared by `main.go` -/

/-- The Go type `time.Duration`: a number of nanoseconds (an `int64`). -/
abbrev Duration := ℤ

/-- The Go constant `time.Millisecond`. -/
def Millisecond : Duration := 1000000

/-- The Go constant `time.Second`. -/
def Second : Duration := 1000000000

/-- The Go method `Duration.Seconds` of the standard library:
`float64(d / Second) + float64(d % Second) / 1e9`, in binary64 arithmetic. -/
def Seconds (d : Duration) : ℚ :=
  float64 (float64 (Int.tdiv d Second) + float64Div (float64 (Int.tmod d Second)) 1000000000)

/-- The fields of `prometheus.CounterOpts`, `GaugeOpts` and `HistogramOpts` set by
`main.go`. -/
structure Opts where
  Name : String
  Help : String
  deriving DecidableEq, Repr

/-- Modelled from the spec: `prometheus.CounterVec` belongs to the client library and is
not under src/.  By the spec, label-value combinations are created lazily on first use
and cached, never duplicated; a counter is incremented by 1.  `children` lists the
label-value combinations that have a child, in creation order, and `value` is the
count of each child. -/
structure CounterVec where
  desc : Desc
  children : List (List String)
  value : List String → ℕ

/-- The constructor `promauto.NewCounterVec(opts, labelNames)`: no child yet. -/
def NewCounterVec (opts : Opts) (labelNames : List String) : CounterVec :=
  { desc := NewDesc opts.Name opts.Help labelNames [], children := [], value := fun _ => 0 }

/-- Modelled from the spec: `CounterVec.WithLabelValues` of the client library.  It
panics unless exactly one value per label name is supplied; otherwise the child of
that combination is created on first use, with count 0, and reused thereafter. -/
def CounterVec.WithLabelValues (v : CounterVec) (lvs : List String) :
    Except String CounterVec :=
  if lvs.length = v.desc.variableLabels.length then
    if lvs ∈ v.children then .ok v
    else .ok { v with children := v.children ++ [lvs], value := Function.update v.value lvs 0 }
  else
    .error "inconsistent label cardinality"

/-- Modelled from the spec: `Counter.Inc` on the child of `lvs`: increments by 1. -/
def CounterVec.Inc (v : CounterVec) (lvs : List String) : CounterVec :=
  { v with value := Function.update v.value lvs (v.value lvs + 1) }

/-- The sum of the counts of all children of a counter vector. -/
def CounterVec.total (v : CounterVec) : ℕ := (v.children.map v.value).sum

/-- Modelled from the spec: `prometheus.Gauge` of the client library, an unconstrained
scalar with `Inc` and `Dec`.  The library keeps a `float64` changed by atomic additions
of 1 and -1; integers of magnitude below `2 ^ 53` are exact in binary64, so the gauge
is modelled by its integer value. -/
structure Gauge where
  desc : Desc
  value : ℤ
  deriving DecidableEq

/-- The constructor `promauto.NewGauge(opts)`: value 0. -/
def NewGauge (opts : Opts) : Gauge :=
  { desc := NewDesc opts.Name opts.Help [] [], value := 0 }

/-- Modelled from the spec: `Gauge.Inc`. -/
def Gauge.Inc (g : Gauge) : Gauge := { g with value := g.value + 1 }

/-- Modelled from the spec: `Gauge.Dec`. -/
def Gauge.Dec (g : Gauge) : Gauge := { g with value := g.value - 1 }

/-- Modelled from the spec: `prometheus.HistogramVec` of the client library.  Bucket
boundaries are fixed at creation; each child is represented by the list of the values
observed so far, from which running sum, count and bucket counts derive. -/
structure HistogramVec where
  desc : Desc
  buckets : List ℚ
  children : List (List String)
  observations : List String → List ℚ

/-- The library constant `prometheus.DefBuckets`: the `float64` values of the decimal
literals .005, .01, .025, .05, .1, .25, .5, 1, 2.5, 5, 10. -/
def DefBuckets : List ℚ :=
  [5 / 1000, 1 / 100, 25 / 1000, 5 / 100, 1 / 10, 25 / 100, 5 / 10, 1, 25 / 10, 5, 10].map
    float64

/-- The constructor `promauto.NewHistogramVec(opts, labelNames)`: no child yet. -/
def NewHistogramVec (opts : Opts) (buckets : List ℚ) (labelNames : List String) :
    HistogramVec :=
  { desc := NewDesc opts.Name opts.Help labelNames [], buckets := buckets, children := [],
    observations := fun _ => [] }

/-- Modelled from the spec: `HistogramVec.WithLabelValues` of the client library, with
the same label discipline as `CounterVec.WithLabelValues`. -/
def HistogramVec.WithLabelValues (h : HistogramVec) (lvs : List String) :
    Except String HistogramVec :=
  if lvs.length = h.desc.variableLabels.length then
    if lvs ∈ h.children then .ok h
    else .ok { h with children := h.children ++ [lvs],
                      observations := Function.update h.observations lvs [] }
  else
    .error "inconsistent label cardinality"

/-- Modelled from the spec: `Observer.Observe` on the child of `lvs`. -/
def HistogramVec.Observe (h : HistogramVec) (lvs : List String) (x : ℚ) : HistogramVec :=
  { h with observations := Function.update h.observations lvs (h.observations lvs ++ [x]) }

/-- The package variable `requestCounter`. -/
def requestCounter : CounterVec :=
  NewCounterVec { Name := "app_requests_total", Help := "Total number of requests processed" }
    ["method", "endpoint", "status"]

/-- The package variable `concurrentRequests`. -/
def concurrentRequests : Gauge :=
  NewGauge { Name := "app_concurrent_requests",
             Help := "Number of concurrent requests being processed" }

/-- The package variable `requestDuration`. -/
def requestDuration : HistogramVec :=
  NewHistogramVec { Name := "app_request_duration_seconds", Help := "Request latency in seconds" }
    DefBuckets ["method", "endpoint"]

/-- The current contents of the three package variables. -/
structure Instruments where
  requestCounter : CounterVec
  concurrentRequests : Gauge
  requestDuration : HistogramVec

/-- The instruments as declared, before any request. -/
def freshInstruments : Instruments :=
  { requestCounter := requestCounter, concurrentRequests := concurrentRequests,
    requestDuration := requestDuration }

/-! ## `handleRequest` -/

/-- The calls `handleRequest` makes, each atomic with respect to the instruments. -/
inductive Op where
  | concurrentRequests_Inc
  | concurrentRequests_Dec
  | Sleep (d : Duration)
  | requestCounter_WithLabelValues (lvs : List String)
  | requestCounter_Inc (lvs : List String)
  | requestDuration_WithLabelValues (lvs : List String)
  | requestDuration_Observe (lvs : List String) (x : ℚ)
  deriving DecidableEq

/-- A statement of a Go function body: a call executed in place, or a deferred call,
which runs when the function returns. -/
inductive Stmt where
  | call (op : Op)
  | defer (op : Op)
  deriving DecidableEq

/-- The operations a function body performs, in execution order: calls in program
order, then, on return, the deferred calls, last deferred first. -/
def effects : List Stmt → List Op → List Op
  | [], deferred => deferred
  | .call op :: rest, deferred => op :: effects rest deferred
  | .defer op :: rest, deferred => effects rest (op :: deferred)

/-- The argument of `time.Sleep` in `handleRequest`, for the result `r` of
`rand.Intn(900)`: `time.Millisecond * time.Duration(100 + r)`. -/
def sleepDuration (r : ℕ) : Duration := Millisecond * ((100 + r : ℕ) : ℤ)

/-- The body of the Go function `handleRequest(method, endpoint)`.  `r` is the result
of `rand.Intn(900)` and `elapsed` the result of `time.Since(start)`; the chained call
`vec.WithLabelValues(...).Inc()` is two calls. -/
def handleRequest (method endpoint : String) (r : ℕ) (elapsed : Duration) : List Stmt :=
  [ .call .concurrentRequests_Inc,
    .defer .concurrentRequests_Dec,
    .call (.Sleep (sleepDuration r)),
    .call (.requestCounter_WithLabelValues [method, endpoint, "200"]),
    .call (.requestCounter_Inc [method, endpoint, "200"]),
    .call (.requestDuration_WithLabelValues [method, endpoint]),
    .call (.requestDuration_Observe [method, endpoint] (Seconds elapsed)) ]

/-- The durations slept by a sequence of operations. -/
def sleeps : List Op → List Duration
  | [] => []
  | .Sleep d :: ops => d :: sleeps ops
  | _ :: ops => sleeps ops

/-- The effect of one operation on the instruments; a panic is an error. -/
def Instruments.apply (ins : Instruments) : Op → Except String Instruments
  | .concurrentRequests_Inc =>
      .ok { ins with concurrentRequests := ins.concurrentRequests.Inc }
  | .concurrentRequests_Dec =>
      .ok { ins with concurrentRequests := ins.concurrentRequests.Dec }
  | .Sleep _ => .ok ins
  | .requestCounter_WithLabelValues lvs =>
      match ins.requestCounter.WithLabelValues lvs with
      | .ok v => .ok { ins with requestCounter := v }
      | .error e => .error e
  | .requestCounter_Inc lvs =>
      .ok { ins with requestCounter := ins.requestCounter.Inc lvs }
  | .requestDuration_WithLabelValues lvs =>
      match ins.requestDuration.WithLabelValues lvs with
      | .ok h => .ok { ins with requestDuration := h }
      | .error e => .error e
  | .requestDuration_Observe lvs x =>
      .ok { ins with requestDuration := ins.requestDuration.Observe lvs x }

/-! ## Concurrent executions of `handleRequest` -/

/-- One execution of `handleRequest` in its own goroutine: its arguments, the values it
draws from the random source and the clock, and the number `pc` of operations it has
performed so far. -/
structure Goroutine where
  method : String
  endpoint : String
  r : ℕ
  elapsed : Duration
  pc : ℕ
  deriving DecidableEq

/-- The operations of a goroutine, in execution order. -/
def Goroutine.ops (g : Goroutine) : List Op :=
  effects (handleRequest g.method g.endpoint g.r g.elapsed) []

/-- The label values under which `handleRequest(method, endpoint)` counts its request. -/
def requestLabels (p : String × String) : List String := [p.1, p.2, "200"]

/-- The labels under which a goroutine counts its request. -/
def Goroutine.counterLabels (g : Goroutine) : List String := [g.method, g.endpoint, "200"]

/-- A goroutine has started when it has performed its first operation. -/
def Goroutine.started (g : Goroutine) : Prop := 0 < g.pc

/-- A goroutine has returned when it has performed all its operations. -/
def Goroutine.returned (g : Goroutine) : Prop := g.ops.length ≤ g.pc

instance (g : Goroutine) : Decidable g.started := by unfold Goroutine.started; infer_instance

instance (g : Goroutine) : Decidable g.returned := by unfold Goroutine.returned; infer_instance

/-- The instruments together with all goroutines launched so far, in launch order. -/
structure State where
  instruments : Instruments
  goroutines : List Goroutine

/-- The state at program start. -/
def State.init : State := { instruments := freshInstruments, goroutines := [] }

/-- A scheduling event: a `go handleRequest(method, endpoint)` statement is executed, or
goroutine number `i` performs its next operation. -/
inductive Event where
  | go (method endpoint : String) (r : Fin 900) (elapsed : Duration)
  | step (i : ℕ)
  deriving DecidableEq

/-- One scheduling event.  There is no successor when the goroutine does not exist,
has returned, or panics. -/
def State.step (s : State) : Event → Option State
  | .go method endpoint r elapsed =>
      some { s with goroutines := s.goroutines ++
        [{ method := method, endpoint := endpoint, r := r, elapsed := elapsed, pc := 0 }] }
  | .step i =>
      match s.goroutines[i]? with
      | none => none
      | some g =>
          match g.ops[g.pc]? with
          | none => none
          | some op =>
              match s.instruments.apply op with
              | .error _ => none
              | .ok ins =>
                  some { instruments := ins,
                         goroutines := s.goroutines.set i { g with pc := g.pc + 1 } }

/-- A sequence of scheduling events, that is, an interleaving. -/
def State.run (s : State) : List Event → Option State
  | [] => some s
  | ev :: evs =>
      match s.step ev with
      | none => none
      | some s1 => s1.run evs

/-- A goroutine is in flight when it has started and not yet returned. -/
def Goroutine.inFlight (g : Goroutine) : Bool := decide (g.started ∧ ¬ g.returned)

/-- A goroutine has counted its request under `L` when `L` are its labels and it has
performed the increment, its fourth operation. -/
def Goroutine.counted (L : List String) (g : Goroutine) : Bool :=
  decide (g.counterLabels = L ∧ 4 ≤ g.pc)

/-- The number of goroutines that have started and not yet returned. -/
def State.inFlight (s : State) : ℕ := s.goroutines.countP Goroutine.inFlight

/-- All goroutines launched so far have returned. -/
def State.allReturned (s : State) : Prop := ∀ g ∈ s.goroutines, g.returned

/-- The `go` statements of an interleaving, in order. -/
def launches : List Event → List (String × String)
  | [] => []
  | .go method endpoint _ _ :: evs => (method, endpoint) :: launches evs
  | .step _ :: evs => launches evs

/-- The `go` statements executed by `k` iterations of the simulator loop of `main`. -/
def simulatorLoop : ℕ → List (String × String)
  | 0 => []
  | k + 1 => [("GET", "/users"), ("POST", "/login"), ("GET", "/metrics")] ++ simulatorLoop k

/-- The three label combinations the simulator counts requests under. -/
def simulatorLabels : List (List String) :=
  [["GET", "/users", "200"], ["POST", "/login", "200"], ["GET", "/metrics", "200"]]

/-- The interleaving in which each request runs to completion right after its launch:
for each request in turn, the `go` statement followed by the seven operations of the new
goroutine, which gets the number `n`, `n + 1`, and so on. -/
def sequentialSchedule : ℕ → List (String × String) → List Event
  | _, [] => []
  | n, (method, endpoint) :: rest =>
      .go method endpoint 0 0 ::
        (List.replicate 7 (.step n) ++ sequentialSchedule (n + 1) rest)

/-! ## The registry and the registrations of `main` -/

/-- Everything a scrape reads: the runtime state and the instruments. -/
structure World where
  rt : RuntimeState
  instruments : Instruments

/-- A sample returned by a scrape: a constant metric, or the child of a histogram,
represented by the values observed so far. -/
inductive Sample where
  | const (m : Metric)
  | histogram (desc : Desc) (labelValues : List String) (observations : List ℚ)

/-- The descriptor a sample is reported under. -/
def Sample.desc : Sample → Desc
  | .const m => m.desc
  | .histogram desc _ _ => desc

/-- Modelled from the spec: a descriptor owner, as accepted by the registry (which
belongs to the client library and is not under src/): any object exposing `describe`, a
sequence of descriptors, and `collect`, a sequence of samples or a computation error. -/
structure Owner where
  describe : List Desc
  collect : World → Except String (List Sample)

/-- Modelled from the spec: the error of a registration whose descriptor name collides
with an already registered one. -/
inductive RegistryError where
  | DuplicateNameError (name : String)
  deriving DecidableEq

/-- Modelled from the spec: the registry, the append-only sequence of registered owners. -/
structure Registry where
  owners : List Owner

/-- The constructor `prometheus.NewRegistry()`: no owner registered. -/
def NewRegistry : Registry := { owners := [] }

/-- The descriptor names of a list of owners. -/
def ownerNames : List Owner → List String
  | [] => []
  | o :: os => o.describe.map Desc.fqName ++ ownerNames os

/-- Modelled from the spec: `register(descriptor-owner)` fails with `DuplicateNameError`
if a descriptor name collides with an already-registered one, and otherwise appends the
owner.  `MustRegister` of the client library panics on that error. -/
def Registry.register (reg : Registry) (o : Owner) : Except RegistryError Registry :=
  match (o.describe.map Desc.fqName).find? (fun n => decide (n ∈ ownerNames reg.owners)) with
  | some n => .error (.DuplicateNameError n)
  | none => .ok { owners := reg.owners ++ [o] }

/-- The samples of a list of owners, concatenated in order; an owner whose `collect`
fails is skipped. -/
def gatherOwners (w : World) : List Owner → List Sample
  | [] => []
  | o :: os =>
      (match o.collect w with
        | .ok samples => samples
        | .error _ => []) ++ gatherOwners w os

/-- Modelled from the spec: `gatherAll()` calls `collect` on every registered owner and
concatenates the results into one ordered sequence, isolating failures per owner. -/
def Registry.gatherAll (reg : Registry) (w : World) : List Sample :=
  gatherOwners w reg.owners

/-- The collector `customCollector` as a descriptor owner. -/
def collectorOwner (c : ServiceMetricsCollector) : Owner :=
  { describe := c.Describe []
    collect := fun w =>
      match c.Collect w.rt [] with
      | .ok ms => .ok (ms.map Sample.const)
      | .error e => .error e }

/-- The package variable `requestCounter` as a descriptor owner: one sample per child. -/
def requestCounterOwner : Owner :=
  { describe := [requestCounter.desc]
    collect := fun w =>
      .ok (w.instruments.requestCounter.children.map fun L =>
        Sample.const { desc := w.instruments.requestCounter.desc, valType := .CounterValue,
                       val := w.instruments.requestCounter.value L, labelValues := L }) }

/-- The package variable `concurrentRequests` as a descriptor owner: one sample. -/
def concurrentRequestsOwner : Owner :=
  { describe := [concurrentRequests.desc]
    collect := fun w =>
      .ok [Sample.const { desc := w.instruments.concurrentRequests.desc, valType := .GaugeValue,
                          val := w.instruments.concurrentRequests.value, labelValues := [] }] }

/-- The package variable `requestDuration` as a descriptor owner: one sample per child. -/
def requestDurationOwner : Owner :=
  { describe := [requestDuration.desc]
    collect := fun w =>
      .ok (w.instruments.requestDuration.children.map fun L =>
        Sample.histogram w.instruments.requestDuration.desc L
          (w.instruments.requestDuration.observations L)) }

/-- The four owners that `main` registers, in registration order. -/
def mainOwners : List Owner :=
  [collectorOwner NewServiceMetricsCollector, requestCounterOwner, concurrentRequestsOwner,
    requestDurationOwner]

/-- The registrations of the Go function `main`, in order. -/
def mainRegistry : Except RegistryError Registry := do
  let customCollector := NewServiceMetricsCollector
  let reg := NewRegistry
  let reg ← reg.register (collectorOwner customCollector)
  let reg ← reg.register requestCounterOwner
  let reg ← reg.register concurrentRequestsOwner
  let reg ← reg.register requestDurationOwner
  return reg

instance (s : State) : Decidable s.allReturned := by
  unfold State.allReturned; infer_instance

/-- One tick of the simulator in which the three requests overlap: the three `go`
statements, then the goroutines take turns, one operation each. -/
def overlappingTick : List Event :=
  [ .go "GET" "/users" 17 117000000, .go "POST" "/login" 899 999000000,
    .go "GET" "/metrics" 0 100000000,
    .step 0, .step 1, .step 2, .step 0, .step 1, .step 2, .step 0, .step 1, .step 2,
    .step 0, .step 1, .step 2, .step 0, .step 1, .step 2, .step 0, .step 1, .step 2,
    .step 0, .step 1, .step 2 ]

/-- A scrape's view in the middle of a tick: two requests launched, the first asleep,
the second not yet started. -/
def midTick : List Event :=
  [ .go "GET" "/users" 17 117000000, .go "POST" "/login" 899 999000000, .step 0, .step 0 ]

/-- The invariant of the concurrent system: the gauge counts the goroutines in flight,
and the request counter counts, per label combination, the goroutines that have
performed their increment. -/
structure Inv (s : State) : Prop where
  gauge : s.instruments.concurrentRequests.value = (s.inFlight : ℤ)
  pc_le : ∀ g ∈ s.goroutines, g.pc ≤ 7
  counterDesc : s.instruments.requestCounter.desc = requestCounter.desc
  histogramDesc : s.instruments.requestDuration.desc = requestDuration.desc
  value : ∀ L, s.instruments.requestCounter.value L =
    s.goroutines.countP (Goroutine.counted L)
  children_sub : ∀ L ∈ s.instruments.requestCounter.children,
    L ∈ s.goroutines.map Goroutine.counterLabels
  children_sup : ∀ g ∈ s.goroutines, 3 ≤ g.pc →
    g.counterLabels ∈ s.instruments.requestCounter.children
  children_nodup : s.instruments.requestCounter.children.Nodup

/-! ## Theorems -/

/-- `roundHalfEven` is the identity on integers. -/
theorem roundHalfEven_intCast (z : ℤ) : roundHalfEven (z : ℚ) = z := by
  simp [roundHalfEven]

/-- `roundHalfEven` of a non-negative rational is non-negative. -/
theorem roundHalfEven_nonneg {q : ℚ} (hq : 0 ≤ q) : 0 ≤ roundHalfEven q := by
  have hf : 0 ≤ ⌊q⌋ := Int.floor_nonneg.mpr hq
  unfold roundHalfEven
  simp only
  split_ifs <;> omega

/-- Conversion to `float64` keeps a non-negative number non-negative. -/
theorem float64_nonneg {q : ℚ} (hq : 0 ≤ q) : 0 ≤ float64 q := by
  unfold float64
  split_ifs with h0
  · exact le_refl 0
  · have hulp : (0 : ℚ) < 2 ^ (Int.log 2 |q| - 52) := zpow_pos (by norm_num) _
    have h1 : 0 ≤ roundHalfEven (q / 2 ^ (Int.log 2 |q| - 52)) :=
      roundHalfEven_nonneg (div_nonneg hq hulp.le)
    have h2 : (0 : ℚ) ≤ (roundHalfEven (q / 2 ^ (Int.log 2 |q| - 52)) : ℚ) := by
      exact_mod_cast h1
    exact mul_nonneg h2 hulp.le

/-- An integer of magnitude below `2 ^ 53` is converted to `float64` exactly. -/
theorem float64_intCast_exact (z : ℤ) (hz : |z| < 2 ^ 53) : float64 (z : ℚ) = z := by
  unfold float64
  split_ifs with h0
  · exact h0.symm
  · have habs : |(z : ℚ)| = ((z.natAbs : ℕ) : ℚ) := by
      rw [Nat.cast_natAbs, Int.cast_abs]
    have hn : z.natAbs < 2 ^ 53 := by
      have := hz; rw [Int.abs_eq_natAbs] at this; exact_mod_cast this
    have he : Nat.log 2 z.natAbs < 53 := by
      by_cases hn0 : z.natAbs = 0
      · simp [hn0]
      · exact Nat.log_lt_of_lt_pow hn0 hn
    obtain ⟨k, hk⟩ : ∃ k : ℕ, Nat.log 2 z.natAbs + k = 52 := ⟨52 - Nat.log 2 z.natAbs, by omega⟩
    have hulp : (2 : ℚ) ^ (Int.log 2 |(z : ℚ)| - 52) = ((2 : ℚ) ^ k)⁻¹ := by
      rw [habs, Int.log_natCast, ← zpow_natCast, ← zpow_neg]
      congr 1; omega
    simp only [hulp]
    have hq : (z : ℚ) / ((2 : ℚ) ^ k)⁻¹ = ((z * 2 ^ k : ℤ) : ℚ) := by
      rw [div_inv_eq_mul]; push_cast; ring
    rw [hq, roundHalfEven_intCast]
    push_cast
    field_simp

/-- Rounding to the nearest integer moves a number by at most one half. -/
theorem roundHalfEven_abs_sub_le (q : ℚ) : |(roundHalfEven q : ℚ) - q| ≤ 1 / 2 := by
  have h0 : (⌊q⌋ : ℚ) ≤ q := Int.floor_le q
  have h1 : q < ⌊q⌋ + 1 := Int.lt_floor_add_one q
  unfold roundHalfEven
  simp only
  rw [abs_le]
  split_ifs with ha hb hc
  · constructor <;> linarith
  · push_cast; constructor <;> linarith
  · have : q - ⌊q⌋ = 1 / 2 := le_antisymm (not_lt.1 hb) (not_lt.1 ha)
    constructor <;> linarith
  · have : q - ⌊q⌋ = 1 / 2 := le_antisymm (not_lt.1 hb) (not_lt.1 ha)
    push_cast; constructor <;> linarith

/-- Conversion to `float64` has relative error at most `2 ^ (-53)`. -/
theorem float64_abs_sub_le (q : ℚ) : |float64 q - q| ≤ |q| / 2 ^ 53 := by
  unfold float64
  split_ifs with h0
  · simp [h0]
  · have hq : 0 < |q| := abs_pos.2 h0
    set e := Int.log 2 |q| with he
    have hulp : (0 : ℚ) < 2 ^ (e - 52) := zpow_pos (by norm_num) _
    have hle : ((2 : ℕ) : ℚ) ^ e ≤ |q| := Int.zpow_log_le_self (by norm_num) hq
    have hsplit : (2 : ℚ) ^ (e - 52) = 2 ^ e / 2 ^ 52 := by
      rw [zpow_sub₀ (by norm_num)]; norm_num
    have hr := roundHalfEven_abs_sub_le (q / 2 ^ (e - 52))
    have heq : (roundHalfEven (q / 2 ^ (e - 52)) : ℚ) * 2 ^ (e - 52) - q =
        ((roundHalfEven (q / 2 ^ (e - 52)) : ℚ) - q / 2 ^ (e - 52)) * 2 ^ (e - 52) := by
      field_simp
    simp only
    rw [heq, abs_mul, abs_of_pos hulp]
    calc |(roundHalfEven (q / 2 ^ (e - 52)) : ℚ) - q / 2 ^ (e - 52)| * 2 ^ (e - 52)
        ≤ 1 / 2 * 2 ^ (e - 52) := mul_le_mul_of_nonneg_right hr hulp.le
      _ = 2 ^ e / 2 ^ 53 := by rw [hsplit]; ring
      _ ≤ |q| / 2 ^ 53 := by
          apply div_le_div_of_nonneg_right _ (by positivity)
          simpa using hle

/-- A natural number below `2 ^ 53` is converted to `float64` exactly. -/
theorem float64_natCast_exact (n : ℕ) (hn : n < 2 ^ 53) : float64 (n : ℚ) = n := by
  have h := float64_intCast_exact (n : ℤ) (by
    rw [abs_of_nonneg (Int.natCast_nonneg n)]
    exact_mod_cast hn)
  simpa using h

/-- The load factor of `n` goroutines on `c` CPUs, both below `2 ^ 53`: the quotient
`n / c` rounded to `float64`. -/
theorem loadFactor_eq (n c : ℕ) (hn : n < 2 ^ 53) (hc : c < 2 ^ 53) :
    float64Div (float64 n) (float64 c) = float64 ((n : ℚ) / c) := by
  rw [float64Div, float64_natCast_exact n hn, float64_natCast_exact c hc]

/-- The load factor is exact when the number of CPUs divides the number of goroutines. -/
theorem loadFactor_of_dvd (n c : ℕ) (hn : n < 2 ^ 53) (hc : c < 2 ^ 53) (hpos : 0 < c)
    (hdvd : c ∣ n) : float64Div (float64 n) (float64 c) = (n : ℚ) / c := by
  rw [loadFactor_eq n c hn hc]
  obtain ⟨k, rfl⟩ := hdvd
  have hk : k < 2 ^ 53 := lt_of_le_of_lt (Nat.le_mul_of_pos_left k hpos) hn
  have hc0 : (c : ℚ) ≠ 0 := by exact_mod_cast hpos.ne'
  have hq : ((c * k : ℕ) : ℚ) / c = k := by
    push_cast
    field_simp
  rw [hq, float64_natCast_exact k hk]

/-- The quotient 4 / 3 is not a `float64`: it is rounded down. -/
theorem float64_four_thirds : float64 (4 / 3) = 6004799503160661 / 4503599627370496 := by
  have hlog : Int.log 2 |(4 / 3 : ℚ)| = 0 := by
    have habs : |(4 / 3 : ℚ)| = 4 / 3 := abs_of_pos (by norm_num)
    rw [habs, Int.log_of_one_le_right 2 (by norm_num)]
    have hfl : ⌊(4 / 3 : ℚ)⌋₊ = 1 := by
      rw [Nat.floor_eq_iff (by norm_num)]
      norm_num
    rw [hfl]
    simp
  have hround : roundHalfEven ((4 / 3 : ℚ) / 2 ^ ((0 : ℤ) - 52)) = 6004799503160661 := by
    have hq : (4 / 3 : ℚ) / 2 ^ ((0 : ℤ) - 52) = 18014398509481984 / 3 := by
      norm_num [zpow_neg]
    have hfl : ⌊(18014398509481984 / 3 : ℚ)⌋ = 6004799503160661 := by
      rw [Int.floor_eq_iff]
      norm_num
    rw [hq]
    unfold roundHalfEven
    simp only [hfl]
    norm_num
  unfold float64
  rw [if_neg (by norm_num)]
  simp only [hlog, hround]
  norm_num [zpow_neg]

/-! ### The collector -/

/-- The six samples `Collect` sends for the collector of `NewServiceMetricsCollector`. -/
theorem Collect_eq (rt : RuntimeState) (ch : List Metric) :
    NewServiceMetricsCollector.Collect rt ch = .ok (ch ++
      [ { desc := NewServiceMetricsCollector.memoryUsageDesc, valType := .GaugeValue,
          val := float64 rt.memStats.HeapAlloc, labelValues := ["heap_alloc"] },
        { desc := NewServiceMetricsCollector.memoryUsageDesc, valType := .GaugeValue,
          val := float64 rt.memStats.HeapSys, labelValues := ["heap_sys"] },
        { desc := NewServiceMetricsCollector.memoryUsageDesc, valType := .GaugeValue,
          val := float64 rt.memStats.HeapIdle, labelValues := ["heap_idle"] },
        { desc := NewServiceMetricsCollector.systemLoadDesc, valType := .GaugeValue,
          val := float64Div (float64 rt.NumGoroutine1) (float64 rt.NumCPU),
          labelValues := ["cpu_load"] },
        { desc := NewServiceMetricsCollector.goroutinesDesc, valType := .GaugeValue,
          val := float64 rt.NumGoroutine2, labelValues := [] },
        { desc := NewServiceMetricsCollector.lastProcessedDesc, valType := .GaugeValue,
          val := float64 rt.Unix, labelValues := [] } ]) := by
  simp [ServiceMetricsCollector.Collect, MustNewConstMetric, NewServiceMetricsCollector,
    NewDesc, bind, Except.bind, pure, Except.pure]

/-! ### Goroutines -/

/-- The seven operations of one execution of `handleRequest`, in execution order. -/
theorem Goroutine.ops_eq (g : Goroutine) :
    g.ops =
      [ .concurrentRequests_Inc,
        .Sleep (sleepDuration g.r),
        .requestCounter_WithLabelValues g.counterLabels,
        .requestCounter_Inc g.counterLabels,
        .requestDuration_WithLabelValues [g.method, g.endpoint],
        .requestDuration_Observe [g.method, g.endpoint] (Seconds g.elapsed),
        .concurrentRequests_Dec ] := rfl

theorem Goroutine.ops_length (g : Goroutine) : g.ops.length = 7 := rfl

/-- The operation a goroutine performs next, by program counter. -/
theorem Goroutine.next_op {g : Goroutine} {op : Op} (h : g.ops[g.pc]? = some op) :
    (g.pc = 0 ∧ op = .concurrentRequests_Inc) ∨
    (g.pc = 1 ∧ op = .Sleep (sleepDuration g.r)) ∨
    (g.pc = 2 ∧ op = .requestCounter_WithLabelValues g.counterLabels) ∨
    (g.pc = 3 ∧ op = .requestCounter_Inc g.counterLabels) ∨
    (g.pc = 4 ∧ op = .requestDuration_WithLabelValues [g.method, g.endpoint]) ∨
    (g.pc = 5 ∧ op = .requestDuration_Observe [g.method, g.endpoint] (Seconds g.elapsed)) ∨
    (g.pc = 6 ∧ op = .concurrentRequests_Dec) := by
  have hlt : g.pc < 7 := by
    have := (List.getElem?_eq_some_iff.1 h).1
    simpa [Goroutine.ops_length] using this
  rw [Goroutine.ops_eq] at h
  interval_cases hpc : g.pc <;> simp_all

/-- Replacing one element of a list changes a count by the difference of the indicators. -/
theorem countP_set_add {α : Type} (p : α → Bool) (l : List α) (i : ℕ) (a b : α)
    (h : l[i]? = some a) :
    (l.set i b).countP p + (if p a then 1 else 0) = l.countP p + (if p b then 1 else 0) := by
  induction l generalizing i with
  | nil => simp at h
  | cons x xs ih =>
    cases i with
    | zero =>
      simp only [List.getElem?_cons_zero, Option.some.injEq] at h
      subst h
      simp only [List.set_cons_zero, List.countP_cons]
      omega
    | succ n =>
      simp only [List.getElem?_cons_succ] at h
      have := ih n h
      simp only [List.set_cons_succ, List.countP_cons]
      omega

/-- A scheduling step of goroutine `i` succeeds exactly when the goroutine exists, has a
next operation, and that operation does not panic. -/
theorem State.step_step_eq_some {s s1 : State} {i : ℕ} (h : s.step (.step i) = some s1) :
    ∃ g op ins, s.goroutines[i]? = some g ∧ g.ops[g.pc]? = some op ∧
      s.instruments.apply op = .ok ins ∧
      s1 = { instruments := ins, goroutines := s.goroutines.set i { g with pc := g.pc + 1 } } := by
  cases hg : s.goroutines[i]? with
  | none => simp [State.step, hg] at h
  | some g =>
    cases hop : g.ops[g.pc]? with
    | none => simp [State.step, hg, hop] at h
    | some op =>
      cases hins : s.instruments.apply op with
      | error e => simp [State.step, hg, hop, hins] at h
      | ok ins =>
        simp only [State.step, hg, hop, hins, Option.some.injEq] at h
        exact ⟨g, op, ins, rfl, hop, hins, h.symm⟩

/-- Replacing an element by one with the same image leaves the mapped list unchanged. -/
theorem map_set_of_eq {α β : Type} (f : α → β) (l : List α) (i : ℕ) (a b : α)
    (h : l[i]? = some a) (hf : f b = f a) : (l.set i b).map f = l.map f := by
  induction l generalizing i with
  | nil => simp at h
  | cons x xs ih =>
    cases i with
    | zero =>
      simp only [List.getElem?_cons_zero, Option.some.injEq] at h
      subst h
      simp [hf]
    | succ n =>
      simp only [List.getElem?_cons_succ] at h
      simp [ih n h]

/-- The effect of looking up a counter child on the instruments. -/
theorem Instruments.apply_counterWith {ins ins1 : Instruments} {L : List String}
    (h : ins.apply (.requestCounter_WithLabelValues L) = .ok ins1) :
    ins1.concurrentRequests = ins.concurrentRequests ∧
    ins1.requestDuration = ins.requestDuration ∧
    ins1.requestCounter.desc = ins.requestCounter.desc ∧
    ((L ∈ ins.requestCounter.children ∧ ins1.requestCounter = ins.requestCounter) ∨
     (L ∉ ins.requestCounter.children ∧
      ins1.requestCounter.children = ins.requestCounter.children ++ [L] ∧
      ins1.requestCounter.value = Function.update ins.requestCounter.value L 0)) := by
  simp only [Instruments.apply, CounterVec.WithLabelValues] at h
  split_ifs at h with h1 h2
  · simp only [Except.ok.injEq] at h; subst h; simp [h2]
  · simp only [Except.ok.injEq] at h; subst h; simp [h2]

/-- The effect of looking up a histogram child on the instruments. -/
theorem Instruments.apply_histogramWith {ins ins1 : Instruments} {L : List String}
    (h : ins.apply (.requestDuration_WithLabelValues L) = .ok ins1) :
    ins1.concurrentRequests = ins.concurrentRequests ∧
    ins1.requestCounter = ins.requestCounter ∧
    ins1.requestDuration.desc = ins.requestDuration.desc := by
  simp only [Instruments.apply, HistogramVec.WithLabelValues] at h
  split_ifs at h with h1 h2
  · simp only [Except.ok.injEq] at h; subst h; simp
  · simp only [Except.ok.injEq] at h; subst h; simp

/-! ### The invariant -/

theorem Inv.init : Inv State.init := by
  constructor <;>
    simp [State.init, State.inFlight, freshInstruments, concurrentRequests, NewGauge,
      requestCounter, NewCounterVec]

/-- Launching a goroutine preserves the invariant. -/
theorem Inv.go {s : State} (hinv : Inv s) (method endpoint : String) (r : ℕ)
    (elapsed : Duration) :
    Inv { s with goroutines := s.goroutines ++
      [{ method := method, endpoint := endpoint, r := r, elapsed := elapsed, pc := 0 }] } := by
  constructor
  · simpa [State.inFlight, List.countP_append, Goroutine.inFlight, Goroutine.started] using hinv.gauge
  · intro g hg
    simp only [List.mem_append, List.mem_singleton] at hg
    rcases hg with hg | rfl
    · exact hinv.pc_le g hg
    · simp
  · exact hinv.counterDesc
  · exact hinv.histogramDesc
  · intro L
    simpa [List.countP_append, Goroutine.counted] using hinv.value L
  · intro L hL
    have := hinv.children_sub L hL
    simp only [List.map_append, List.mem_append]
    exact Or.inl this
  · intro g hg h3
    simp only [List.mem_append, List.mem_singleton] at hg
    rcases hg with hg | rfl
    · exact hinv.children_sup g hg h3
    · simp at h3
  · exact hinv.children_nodup

theorem Goroutine.inFlight_eq (g : Goroutine) :
    g.inFlight = decide (0 < g.pc ∧ g.pc < 7) := by
  simp [Goroutine.inFlight, Goroutine.started, Goroutine.returned, Goroutine.ops_length]

theorem Goroutine.counted_eq (L : List String) (g : Goroutine) :
    g.counted L = decide ([g.method, g.endpoint, "200"] = L ∧ 4 ≤ g.pc) := rfl

/-- One operation of one goroutine preserves the invariant. -/
theorem Inv.exec {s : State} (hinv : Inv s) {i : ℕ} {g : Goroutine} {op : Op}
    {ins : Instruments} (hg : s.goroutines[i]? = some g) (hop : g.ops[g.pc]? = some op)
    (hins : s.instruments.apply op = .ok ins) :
    Inv { instruments := ins, goroutines := s.goroutines.set i { g with pc := g.pc + 1 } } := by
  have hmem : g ∈ s.goroutines := List.getElem?_mem hg
  have hset : ∀ x ∈ s.goroutines.set i { g with pc := g.pc + 1 },
      x ∈ s.goroutines ∨ x = { g with pc := g.pc + 1 } :=
    fun x hx => List.mem_or_eq_of_mem_set hx
  have hmap : (s.goroutines.set i { g with pc := g.pc + 1 }).map Goroutine.counterLabels =
      s.goroutines.map Goroutine.counterLabels :=
    map_set_of_eq _ _ _ _ _ hg rfl
  have hcnt := fun p => countP_set_add p s.goroutines i g { g with pc := g.pc + 1 } hg
  have hgauge := hcnt Goroutine.inFlight
  have hvalue := fun L => hcnt (Goroutine.counted L)
  rw [Goroutine.inFlight_eq g, Goroutine.inFlight_eq { g with pc := g.pc + 1 }] at hgauge
  simp only [Goroutine.counted_eq _ g, Goroutine.counted_eq _ { g with pc := g.pc + 1 }] at hvalue
  have hlabel : g.counterLabels ∈ s.goroutines.map Goroutine.counterLabels :=
    List.mem_map_of_mem _ hmem
  have hG := hinv.gauge
  have hV := hinv.value
  have hsup := hinv.children_sup
  have hlt : g.pc < 7 := by
    have := (List.getElem?_eq_some_iff.1 hop).1
    simpa [Goroutine.ops_length] using this
  have hpcle : ∀ x ∈ s.goroutines.set i { g with pc := g.pc + 1 }, x.pc ≤ 7 := by
    intro x hx
    rcases hset x hx with hx | rfl
    · exact hinv.pc_le x hx
    · exact hlt
  have hnext := Goroutine.next_op hop
  clear hop hcnt
  simp only [State.inFlight] at hG
  obtain ⟨m, e, r, d, pc⟩ := g
  simp only [Goroutine.counterLabels] at *
  rcases hnext with ⟨rfl, rfl⟩ | ⟨rfl, rfl⟩ | ⟨rfl, rfl⟩ | ⟨rfl, rfl⟩ |
    ⟨rfl, rfl⟩ | ⟨rfl, rfl⟩ | ⟨rfl, rfl⟩
  · simp only [Instruments.apply, Except.ok.injEq] at hins
    subst hins
    simp at hgauge hvalue
    refine ⟨?_, hpcle, hinv.counterDesc, hinv.histogramDesc, ?_, ?_, ?_, hinv.children_nodup⟩
    · simp only [State.inFlight, Gauge.Inc, hgauge, hG]
      push_cast
      rfl
    · intro L
      simp only [hvalue L, hV L]
    · intro L hL
      simp only [hmap]
      exact hinv.children_sub L hL
    · intro x hx h3
      rcases hset x hx with hx | rfl
      · exact hsup x hx h3
      · simp at h3
  · simp only [Instruments.apply, Except.ok.injEq] at hins
    subst hins
    simp at hgauge hvalue
    refine ⟨?_, hpcle, hinv.counterDesc, hinv.histogramDesc, ?_, ?_, ?_, hinv.children_nodup⟩
    · simp only [State.inFlight, hgauge, hG]
    · intro L
      simp only [hvalue L, hV L]
    · intro L hL
      simp only [hmap]
      exact hinv.children_sub L hL
    · intro x hx h3
      rcases hset x hx with hx | rfl
      · exact hsup x hx h3
      · simp at h3
  · obtain ⟨h1, h2, h3, h4⟩ := Instruments.apply_counterWith hins
    simp at hgauge hvalue
    have hsub : ∀ L ∈ s.instruments.requestCounter.children, L ∈ ins.requestCounter.children := by
      intro L hL
      rcases h4 with ⟨_, h4⟩ | ⟨_, h4, _⟩
      · rw [h4]; exact hL
      · rw [h4]; exact List.mem_append_left _ hL
    have hnew : [m, e, "200"] ∈ ins.requestCounter.children := by
      rcases h4 with ⟨h0, h4⟩ | ⟨_, h4, _⟩
      · rw [h4]; exact h0
      · rw [h4]; simp
    refine ⟨?_, hpcle, h3.trans hinv.counterDesc, by rw [h2]; exact hinv.histogramDesc,
      ?_, ?_, ?_, ?_⟩
    · simp only [State.inFlight, hgauge, hG, h1]
    · intro L
      rw [hvalue L, ← hV L]
      rcases h4 with ⟨_, h4⟩ | ⟨h0, _, h4⟩
      · rw [h4]
      · rw [h4]
        by_cases hL : L = [m, e, "200"]
        · subst hL
          rw [Function.update_same, hV]
          symm
          rw [List.countP_eq_zero]
          intro x hx hc
          simp only [Goroutine.counted, Goroutine.counterLabels, decide_eq_true_eq] at hc
          apply h0
          have := hsup x hx (by omega)
          rw [hc.1] at this
          exact this
        · rw [Function.update_noteq hL]
    · intro L hL
      simp only [hmap]
      rcases h4 with ⟨_, h4⟩ | ⟨_, h4, _⟩
      · rw [h4] at hL; exact hinv.children_sub L hL
      · rw [h4] at hL
        simp only [List.mem_append, List.mem_singleton] at hL
        rcases hL with hL | rfl
        · exact hinv.children_sub L hL
        · exact hlabel
    · intro x hx hx3
      rcases hset x hx with hx | rfl
      · exact hsub _ (hsup x hx hx3)
      · exact hnew
    · rcases h4 with ⟨_, h4⟩ | ⟨h0, h4, _⟩
      · rw [h4]; exact hinv.children_nodup
      · rw [h4]
        exact List.Nodup.append hinv.children_nodup (List.nodup_singleton _) (by simpa using h0)
  · simp only [Instruments.apply, Except.ok.injEq] at hins
    subst hins
    simp at hgauge hvalue
    refine ⟨?_, hpcle, hinv.counterDesc, hinv.histogramDesc, ?_, ?_, ?_, hinv.children_nodup⟩
    · simp only [State.inFlight, hgauge, hG]
    · intro L
      have := hvalue L
      simp only [CounterVec.Inc]
      by_cases hL : L = [m, e, "200"]
      · subst hL
        simp only [Function.update_same, hV]
        simpa using this.symm
      · rw [Function.update_noteq hL, hV L]
        have hL2 : ¬ [m, e, "200"] = L := fun h => hL h.symm
        simpa [hL2] using this.symm
    · intro L hL
      simp only [hmap]
      exact hinv.children_sub L hL
    · intro x hx h3
      rcases hset x hx with hx | rfl
      · exact hsup x hx h3
      · exact hsup ⟨m, e, r, d, 3⟩ hmem (le_refl 3)
  · obtain ⟨h1, h2, h3⟩ := Instruments.apply_histogramWith hins
    simp at hgauge hvalue
    refine ⟨?_, hpcle, by rw [h2]; exact hinv.counterDesc, h3.trans hinv.histogramDesc,
      ?_, ?_, ?_, by rw [h2]; exact hinv.children_nodup⟩
    · simp only [State.inFlight, hgauge, hG, h1]
    · intro L
      simp only [hvalue L, hV L, h2]
    · intro L hL
      simp only [hmap]
      rw [h2] at hL
      exact hinv.children_sub L hL
    · intro x hx hx3
      rw [h2]
      rcases hset x hx with hx | rfl
      · exact hsup x hx hx3
      · exact hsup ⟨m, e, r, d, 4⟩ hmem (by simp)
  · simp only [Instruments.apply, Except.ok.injEq] at hins
    subst hins
    simp at hgauge hvalue
    refine ⟨?_, hpcle, hinv.counterDesc, hinv.histogramDesc, ?_, ?_, ?_, hinv.children_nodup⟩
    · simp only [State.inFlight, hgauge, hG]
    · intro L
      simp only [hvalue L, hV L]
    · intro L hL
      simp only [hmap]
      exact hinv.children_sub L hL
    · intro x hx h3
      rcases hset x hx with hx | rfl
      · exact hsup x hx h3
      · exact hsup ⟨m, e, r, d, 5⟩ hmem (by simp)
  · simp only [Instruments.apply, Except.ok.injEq] at hins
    subst hins
    simp at hgauge hvalue
    refine ⟨?_, hpcle, hinv.counterDesc, hinv.histogramDesc, ?_, ?_, ?_, hinv.children_nodup⟩
    · simp only [State.inFlight, Gauge.Dec, hG, ← hgauge]
      push_cast
      ring
    · intro L
      simp only [hvalue L, hV L]
    · intro L hL
      simp only [hmap]
      exact hinv.children_sub L hL
    · intro x hx h3
      rcases hset x hx with hx | rfl
      · exact hsup x hx h3
      · exact hsup ⟨m, e, r, d, 6⟩ hmem (by simp)

/-- Every scheduling event preserves the invariant. -/
theorem Inv.step {s s1 : State} (hinv : Inv s) (ev : Event) (h : s.step ev = some s1) :
    Inv s1 := by
  cases ev with
  | go method endpoint r elapsed =>
    simp only [State.step, Option.some.injEq] at h
    subst h
    exact hinv.go method endpoint r elapsed
  | step i =>
    obtain ⟨g, op, ins, hg, hop, hins, rfl⟩ := State.step_step_eq_some h
    exact hinv.exec hg hop hins

/-- Every interleaving preserves the invariant. -/
theorem Inv.run {s s1 : State} (hinv : Inv s) (evs : List Event) (h : s.run evs = some s1) :
    Inv s1 := by
  induction evs generalizing s with
  | nil =>
    simp only [State.run, Option.some.injEq] at h
    subst h
    exact hinv
  | cons ev evs ih =>
    cases hstep : s.step ev with
    | none => simp [State.run, hstep] at h
    | some s2 =>
      simp only [State.run, hstep] at h
      exact ih (hinv.step ev hstep) h

/-- The invariant holds in every state reachable from program start. -/
theorem Inv.of_run {evs : List Event} {s : State} (h : State.init.run evs = some s) : Inv s :=
  Inv.init.run evs h

/-- The arguments of the goroutines of a state are the arguments of the `go` statements
executed so far, in order. -/
theorem State.run_launches {s s1 : State} (evs : List Event) (h : s.run evs = some s1) :
    s1.goroutines.map (fun g => (g.method, g.endpoint)) =
      s.goroutines.map (fun g => (g.method, g.endpoint)) ++ launches evs := by
  induction evs generalizing s with
  | nil =>
    simp only [State.run, Option.some.injEq] at h
    subst h
    simp [launches]
  | cons ev evs ih =>
    cases hstep : s.step ev with
    | none => simp [State.run, hstep] at h
    | some s2 =>
      simp only [State.run, hstep] at h
      have h2 := ih h
      cases ev with
      | go method endpoint r elapsed =>
        simp only [State.step, Option.some.injEq] at hstep
        subst hstep
        simpa [launches] using h2
      | step i =>
        obtain ⟨g, op, ins, hg, hop, hins, rfl⟩ := State.step_step_eq_some hstep
        rw [h2, launches]
        congr 1
        exact map_set_of_eq _ _ _ _ _ hg rfl

/-- A goroutine that has not returned can always perform its next operation: no
operation of `handleRequest` panics. -/
theorem State.step_progress {s : State} (hinv : Inv s) {i : ℕ} {g : Goroutine}
    (hg : s.goroutines[i]? = some g) (hpc : g.pc < 7) :
    ∃ ins, s.step (.step i) =
      some { instruments := ins, goroutines := s.goroutines.set i { g with pc := g.pc + 1 } } := by
  have hlen : g.pc < g.ops.length := by rw [Goroutine.ops_length]; exact hpc
  have hop : g.ops[g.pc]? = some (g.ops[g.pc]) := List.getElem?_eq_getElem hlen
  have hok : ∃ ins, s.instruments.apply (g.ops[g.pc]) = .ok ins := by
    rcases Goroutine.next_op hop with ⟨_, h⟩ | ⟨_, h⟩ | ⟨_, h⟩ | ⟨_, h⟩ | ⟨_, h⟩ | ⟨_, h⟩ | ⟨_, h⟩
    all_goals rw [h]
    · exact ⟨_, rfl⟩
    · exact ⟨_, rfl⟩
    · simp only [Instruments.apply, CounterVec.WithLabelValues, hinv.counterDesc]
      simp only [Goroutine.counterLabels, requestCounter, NewCounterVec, NewDesc,
        List.length_cons, List.length_nil]
      split_ifs <;> exact ⟨_, rfl⟩
    · exact ⟨_, rfl⟩
    · simp only [Instruments.apply, HistogramVec.WithLabelValues, hinv.histogramDesc]
      simp only [requestDuration, NewHistogramVec, NewDesc,
        List.length_cons, List.length_nil]
      split_ifs <;> exact ⟨_, rfl⟩
    · exact ⟨_, rfl⟩
    · exact ⟨_, rfl⟩
  obtain ⟨ins, hins⟩ := hok
  exact ⟨ins, by simp only [State.step, hg, hop, hins]⟩

/-! ### The sequential interleaving -/

theorem State.run_cons {s s1 : State} {ev : Event} (h : s.step ev = some s1)
    (evs : List Event) : s.run (ev :: evs) = s1.run evs := by
  simp only [State.run, h]

theorem State.run_append (s : State) (evs1 evs2 : List Event) :
    s.run (evs1 ++ evs2) = (s.run evs1).bind (fun s1 => s1.run evs2) := by
  induction evs1 generalizing s with
  | nil => simp [State.run]
  | cons ev evs ih =>
    cases hstep : s.step ev with
    | none => simp [State.run, hstep]
    | some s2 => simp [State.run, hstep, ih]

/-- A goroutine with `n` operations left performs them in `n` consecutive steps. -/
theorem State.run_to_completion (n : ℕ) {s : State} (hinv : Inv s) {i : ℕ} {g : Goroutine}
    (hg : s.goroutines[i]? = some g) (hpc : g.pc + n = 7) :
    ∃ s1, s.run (List.replicate n (.step i)) = some s1 ∧
      s1.goroutines = s.goroutines.set i { g with pc := 7 } := by
  induction n generalizing s g with
  | zero =>
    refine ⟨s, rfl, ?_⟩
    have h7 : g.pc = 7 := by omega
    have hge : ({ g with pc := 7 } : Goroutine) = g := by
      cases g; simp only at h7; subst h7; rfl
    rw [hge]
    have := map_set_of_eq id s.goroutines i g g hg rfl
    simpa using this.symm
  | succ n ih =>
    obtain ⟨ins, hstep⟩ := State.step_progress hinv hg (by omega)
    have hinv2 := hinv.step _ hstep
    have hlt : i < s.goroutines.length := (List.getElem?_eq_some_iff.1 hg).1
    have hg2 : (s.goroutines.set i { g with pc := g.pc + 1 })[i]? =
        some { g with pc := g.pc + 1 } := by
      rw [List.getElem?_set_self hlt]
    obtain ⟨s1, hrun, hgs⟩ := ih hinv2 hg2 (by simp only; omega)
    refine ⟨s1, ?_, ?_⟩
    · simp only [List.replicate_succ, State.run, hstep]
      exact hrun
    · rw [hgs]
      simp only [List.set_set]

/-- From a state in which all goroutines have returned, the sequential interleaving of
any list of requests runs, and ends in a state in which all goroutines have returned. -/
theorem State.run_sequentialSchedule (reqs : List (String × String)) {s : State}
    (hinv : Inv s) (hdone : s.allReturned) :
    ∃ s1, s.run (sequentialSchedule s.goroutines.length reqs) = some s1 ∧ s1.allReturned := by
  induction reqs generalizing s with
  | nil => exact ⟨s, rfl, hdone⟩
  | cons req reqs ih =>
    obtain ⟨method, endpoint⟩ := req
    have hinv1 := hinv.go method endpoint 0 0
    have hg : (s.goroutines ++
        [({ method := method, endpoint := endpoint, r := 0, elapsed := 0, pc := 0 } :
          Goroutine)])[s.goroutines.length]? =
        some { method := method, endpoint := endpoint, r := 0, elapsed := 0, pc := 0 } := by
      simp
    obtain ⟨s1, hrun1, hgs1⟩ := State.run_to_completion 7 hinv1 hg rfl
    have hinv2 : Inv s1 := hinv1.run _ hrun1
    have hgs2 : s1.goroutines = s.goroutines ++
        [{ method := method, endpoint := endpoint, r := 0, elapsed := 0, pc := 7 }] := by
      rw [hgs1]
      simp
    have hdone2 : s1.allReturned := by
      intro g hg
      rw [hgs2] at hg
      simp only [List.mem_append, List.mem_singleton] at hg
      rcases hg with hg | rfl
      · exact hdone g hg
      · simp [Goroutine.returned, Goroutine.ops_length]
    have hlen : s1.goroutines.length = s.goroutines.length + 1 := by
      rw [hgs2]; simp
    obtain ⟨s2, hrun2, hdone3⟩ := ih hinv2 hdone2
    refine ⟨s2, ?_, hdone3⟩
    have hgo : s.step (.go method endpoint 0 0) = some { s with goroutines := s.goroutines ++
        [{ method := method, endpoint := endpoint, r := 0, elapsed := 0, pc := 0 }] } := rfl
    rw [sequentialSchedule, State.run_cons hgo, State.run_append, hrun1, Option.some_bind,
      ← hlen]
    exact hrun2

theorem launches_sequentialSchedule (n : ℕ) (reqs : List (String × String)) :
    launches (sequentialSchedule n reqs) = reqs := by
  induction reqs generalizing n with
  | nil => rfl
  | cons req reqs ih =>
    obtain ⟨method, endpoint⟩ := req
    have hrep : ∀ (k : ℕ) (evs : List Event),
        launches (List.replicate k (.step n) ++ evs) = launches evs := by
      intro k evs
      induction k with
      | zero => rfl
      | succ k ihk => simpa [List.replicate_succ, launches] using ihk
    rw [sequentialSchedule, launches, hrep, ih]

/-! ### Completed runs of the simulator -/

/-- In a list without duplicates an element occurs once or not at all. -/
theorem countP_eq_of_nodup {α : Type} [DecidableEq α] {l : List α} (hl : l.Nodup) (a : α) :
    l.countP (fun x => decide (x = a)) = if a ∈ l then 1 else 0 := by
  induction l with
  | nil => simp
  | cons x xs ih =>
    have hx : x ∉ xs := (List.nodup_cons.1 hl).1
    rw [List.countP_cons, ih (List.nodup_cons.1 hl).2]
    by_cases hxa : x = a
    · subst hxa
      simp [hx]
    · have hax : ¬ a = x := fun h => hxa h.symm
      simp [hxa, hax]

/-- An element is in a list exactly when it is counted at least once. -/
theorem mem_iff_countP_pos {α : Type} [DecidableEq α] (l : List α) (a : α) :
    a ∈ l ↔ 0 < l.countP (fun x => decide (x = a)) := by
  rw [List.countP_pos_iff]
  constructor
  · exact fun h => ⟨a, h, by simp⟩
  · rintro ⟨b, hb, hba⟩
    simp only [decide_eq_true_eq] at hba
    exact hba ▸ hb

/-- In a state that satisfies the invariant and in which all goroutines have returned,
the count of a label combination is the number of goroutines with these labels. -/
theorem Inv.value_of_allReturned {s : State} (hinv : Inv s) (hdone : s.allReturned)
    (L : List String) :
    s.instruments.requestCounter.value L =
      (s.goroutines.map Goroutine.counterLabels).countP (fun x => decide (x = L)) := by
  rw [hinv.value L, List.countP_map]
  apply List.countP_congr
  intro g hg
  have h7 : 7 ≤ g.pc := by
    have := hdone g hg
    simpa [Goroutine.returned, Goroutine.ops_length] using this
  simp only [Goroutine.counted, decide_eq_true_eq, Function.comp_apply]
  constructor
  · exact fun h => h.1
  · exact fun h => ⟨h, by omega⟩

/-- The labels of the goroutines of a reachable state are those of the `go` statements. -/
theorem State.counterLabels_of_run {evs : List Event} {s : State}
    (h : State.init.run evs = some s) :
    s.goroutines.map Goroutine.counterLabels = (launches evs).map requestLabels := by
  have := State.run_launches evs h
  simp only [State.init, List.map_nil, List.nil_append] at this
  rw [← this, List.map_map]
  rfl

theorem simulatorLabels_nodup : simulatorLabels.Nodup := by decide

/-- Each of the three label combinations occurs once per iteration of the simulator loop. -/
theorem count_simulatorLoop (k : ℕ) (L : List String) :
    ((simulatorLoop k).map requestLabels).countP (fun x => decide (x = L)) =
      if L ∈ simulatorLabels then k else 0 := by
  induction k with
  | zero => simp [simulatorLoop]
  | succ k ih =>
    have h3 : ([("GET", "/users"), ("POST", "/login"), ("GET", "/metrics")].map requestLabels) =
        simulatorLabels := rfl
    rw [simulatorLoop, List.map_append, List.countP_append, ih, h3,
      countP_eq_of_nodup simulatorLabels_nodup]
    split_ifs <;> omega

theorem mem_simulatorLoop (k : ℕ) (L : List String) :
    L ∈ (simulatorLoop k).map requestLabels ↔ k ≠ 0 ∧ L ∈ simulatorLabels := by
  rw [mem_iff_countP_pos, count_simulatorLoop]
  split_ifs with h
  · simp [h]; omega
  · simp [h]

/-- The request counter after a completed run of `k` iterations of the simulator loop. -/
theorem counter_of_completed_run {k : ℕ} {evs : List Event} {s : State}
    (hrun : State.init.run evs = some s) (hl : launches evs = simulatorLoop k)
    (hdone : s.allReturned) :
    s.instruments.requestCounter.children.Perm (if k = 0 then [] else simulatorLabels) ∧
    (∀ L ∈ s.instruments.requestCounter.children, s.instruments.requestCounter.value L = k) ∧
    s.instruments.requestCounter.total = 3 * k := by
  have hinv := Inv.of_run hrun
  have hlab := State.counterLabels_of_run hrun
  rw [hl] at hlab
  have hval : ∀ L, s.instruments.requestCounter.value L =
      if L ∈ simulatorLabels then k else 0 := by
    intro L
    rw [hinv.value_of_allReturned hdone, hlab, count_simulatorLoop]
  have hmem : ∀ L, L ∈ s.instruments.requestCounter.children ↔ k ≠ 0 ∧ L ∈ simulatorLabels := by
    intro L
    constructor
    · intro hL
      have := hinv.children_sub L hL
      rwa [hlab, mem_simulatorLoop] at this
    · intro hL
      have h1 : L ∈ s.goroutines.map Goroutine.counterLabels := by
        rw [hlab, mem_simulatorLoop]; exact hL
      obtain ⟨g, hg, rfl⟩ := List.mem_map.1 h1
      have h7 : 7 ≤ g.pc := by
        have := hdone g hg
        simpa [Goroutine.returned, Goroutine.ops_length] using this
      exact hinv.children_sup g hg (by omega)
  have hperm : s.instruments.requestCounter.children.Perm
      (if k = 0 then [] else simulatorLabels) := by
    apply (List.perm_ext_iff_of_nodup hinv.children_nodup ?_).2
    · intro L
      rw [hmem]
      split_ifs with hk
      · simp [hk]
      · simp [hk]
    · split_ifs
      · exact List.nodup_nil
      · exact simulatorLabels_nodup
  refine ⟨hperm, ?_, ?_⟩
  · intro L hL
    rw [hval, if_pos ((hmem L).1 hL).2]
  · rw [CounterVec.total, (hperm.map _).sum_eq]
    split_ifs with hk
    · simp [hk]
    · simp only [simulatorLabels, List.map_cons, List.map_nil, List.sum_cons, List.sum_nil]
      rw [hval, hval, hval]
      simp [simulatorLabels]
      omega

/-- Every operation of `handleRequest` succeeds on instruments that still carry the
declared label names. -/
theorem apply_handleRequest_ok (ins : Instruments)
    (hc : ins.requestCounter.desc = requestCounter.desc)
    (hh : ins.requestDuration.desc = requestDuration.desc)
    (method endpoint : String) (r : ℕ) (elapsed : Duration) (op : Op)
    (hop : op ∈ effects (handleRequest method endpoint r elapsed) []) :
    ∃ ins1, ins.apply op = .ok ins1 := by
  simp only [handleRequest, effects, List.mem_cons, List.mem_singleton, List.mem_nil_iff,
    or_false] at hop
  rcases hop with rfl | rfl | rfl | rfl | rfl | rfl | rfl
  · exact ⟨_, rfl⟩
  · exact ⟨_, rfl⟩
  · simp only [Instruments.apply, CounterVec.WithLabelValues, hc]
    simp only [requestCounter, NewCounterVec, NewDesc, List.length_cons, List.length_nil]
    split_ifs <;> exact ⟨_, rfl⟩
  · exact ⟨_, rfl⟩
  · simp only [Instruments.apply, HistogramVec.WithLabelValues, hh]
    simp only [requestDuration, NewHistogramVec, NewDesc, List.length_cons, List.length_nil]
    split_ifs <;> exact ⟨_, rfl⟩
  · exact ⟨_, rfl⟩
  · exact ⟨_, rfl⟩

/-- A registration succeeds exactly when no descriptor name of the new owner is
already registered. -/
theorem Registry.register_eq_ok_iff (reg : Registry) (o : Owner) :
    reg.register o = .ok { owners := reg.owners ++ [o] } ↔
      ∀ d ∈ o.describe, d.fqName ∉ ownerNames reg.owners := by
  unfold Registry.register
  cases hfind : (o.describe.map Desc.fqName).find?
      (fun n => decide (n ∈ ownerNames reg.owners)) with
  | none =>
    refine ⟨fun _ d hd => ?_, fun _ => rfl⟩
    have := List.find?_eq_none.1 hfind d.fqName (List.mem_map_of_mem _ hd)
    simpa using this
  | some n =>
    refine ⟨fun h => by simp at h, fun h => ?_⟩
    have h1 := List.find?_some hfind
    have h2 := List.mem_of_find?_eq_some hfind
    obtain ⟨d, hd, rfl⟩ := List.mem_map.1 h2
    exact absurd (by simpa using h1) (h d hd)

/-- No operation changes the descriptor of the gauge. -/
theorem Instruments.apply_gaugeDesc {ins ins1 : Instruments} {op : Op}
    (h : ins.apply op = .ok ins1) :
    ins1.concurrentRequests.desc = ins.concurrentRequests.desc := by
  cases op with
  | concurrentRequests_Inc =>
    simp only [Instruments.apply, Except.ok.injEq] at h; subst h; rfl
  | concurrentRequests_Dec =>
    simp only [Instruments.apply, Except.ok.injEq] at h; subst h; rfl
  | Sleep d =>
    simp only [Instruments.apply, Except.ok.injEq] at h; subst h; rfl
  | requestCounter_WithLabelValues lvs =>
    rw [(Instruments.apply_counterWith h).1]
  | requestCounter_Inc lvs =>
    simp only [Instruments.apply, Except.ok.injEq] at h; subst h; rfl
  | requestDuration_WithLabelValues lvs =>
    rw [(Instruments.apply_histogramWith h).1]
  | requestDuration_Observe lvs x =>
    simp only [Instruments.apply, Except.ok.injEq] at h; subst h; rfl

/-- No interleaving changes the descriptor of the gauge. -/
theorem State.run_gaugeDesc {s s1 : State} (evs : List Event) (h : s.run evs = some s1) :
    s1.instruments.concurrentRequests.desc = s.instruments.concurrentRequests.desc := by
  induction evs generalizing s with
  | nil =>
    simp only [State.run, Option.some.injEq] at h
    subst h
    rfl
  | cons ev evs ih =>
    cases hstep : s.step ev with
    | none => simp [State.run, hstep] at h
    | some s2 =>
      simp only [State.run, hstep] at h
      rw [ih h]
      cases ev with
      | go method endpoint r elapsed =>
        simp only [State.step, Option.some.injEq] at hstep
        subst hstep
        rfl
      | step i =>
        obtain ⟨g, op, ins, hg, hop, hins, rfl⟩ := State.step_step_eq_some hstep
        exact Instruments.apply_gaugeDesc hins

/-- A gather of the four owners registered by `main`, sample by sample. -/
theorem gatherAll_main (rt : RuntimeState) (ins : Instruments) :
    ∃ ms : List Metric,
      NewServiceMetricsCollector.Collect rt [] = .ok ms ∧
      ms.map (fun m => m.desc.fqName) =
        [ "system_memory_usage_bytes", "system_memory_usage_bytes",
          "system_memory_usage_bytes", "system_load_factor", "system_goroutines_count",
          "last_processed_timestamp" ] ∧
      Registry.gatherAll { owners := mainOwners }
          { rt := rt, instruments := ins } =
        ms.map Sample.const ++
        ins.requestCounter.children.map (fun L =>
          Sample.const { desc := ins.requestCounter.desc, valType := .CounterValue,
                         val := ins.requestCounter.value L, labelValues := L }) ++
        [Sample.const { desc := ins.concurrentRequests.desc, valType := .GaugeValue,
                        val := ins.concurrentRequests.value, labelValues := [] }] ++
        ins.requestDuration.children.map (fun L =>
          Sample.histogram ins.requestDuration.desc L (ins.requestDuration.observations L)) := by
  refine ⟨_, Collect_eq rt [], rfl, ?_⟩
  simp [Registry.gatherAll, gatherOwners, collectorOwner, Collect_eq, requestCounterOwner,
    concurrentRequestsOwner, requestDurationOwner]

/-! ### The claims -/

/-- C1, as the code has it: for every runtime state (heap allocated `a`, heap reserved
from the system `s`, heap idle `i`, `n1` running goroutines at the first read and `n2` at
the second, `c` CPUs with `c > 0`, Unix time `t`), one call of `Collect` sends exactly six
gauge samples, in this order: the memory usage with type `heap_alloc`, `heap_sys` and
`heap_idle`, the load factor of component `cpu_load`, the goroutine count, the
timestamp.  Their values are the `float64` nearest to `a`, `s`, `i`, `n1 / c`, `n2` and
`t`: each is within relative error `2 ^ (-53)` of that number; the values of `a`, `s`,
`i`, `n2` and `t` are exact below `2 ^ 53`, and for `n1` and `c` below `2 ^ 53` the load
factor is exactly `n1 / c` whenever `c` divides `n1`. -/
theorem Collect_emits_six_gauge_samples (a s i n1 n2 : ℕ) (c : ℕ+) (t : ℤ)
    (ch : List Metric) :
    ∃ (va vs vi vl vn vt : ℚ) (ms : List Metric),
      NewServiceMetricsCollector.Collect
        { memStats := { HeapAlloc := a, HeapSys := s, HeapIdle := i },
          NumGoroutine1 := n1, NumCPU := c, NumGoroutine2 := n2, Unix := t } ch =
        .ok (ch ++ ms) ∧
      ms.length = 6 ∧
      (∀ m ∈ ms, m.valType = .GaugeValue) ∧
      ms.map (fun m => (m.desc.fqName, m.desc.variableLabels.zip m.labelValues, m.val)) =
        [ ("system_memory_usage_bytes", [("type", "heap_alloc")], va),
          ("system_memory_usage_bytes", [("type", "heap_sys")], vs),
          ("system_memory_usage_bytes", [("type", "heap_idle")], vi),
          ("system_load_factor", [("component", "cpu_load")], vl),
          ("system_goroutines_count", [], vn),
          ("last_processed_timestamp", [], vt) ] ∧
      (|va - a| ≤ (a : ℚ) / 2 ^ 53 ∧ (a < 2 ^ 53 → va = a)) ∧
      (|vs - s| ≤ (s : ℚ) / 2 ^ 53 ∧ (s < 2 ^ 53 → vs = s)) ∧
      (|vi - i| ≤ (i : ℚ) / 2 ^ 53 ∧ (i < 2 ^ 53 → vi = i)) ∧
      (n1 < 2 ^ 53 → (c : ℕ) < 2 ^ 53 →
        |vl - (n1 : ℚ) / (c : ℕ)| ≤ (n1 : ℚ) / (c : ℕ) / 2 ^ 53 ∧
        ((c : ℕ) ∣ n1 → vl = (n1 : ℚ) / (c : ℕ))) ∧
      (|vn - n2| ≤ (n2 : ℚ) / 2 ^ 53 ∧ (n2 < 2 ^ 53 → vn = n2)) ∧
      (|vt - t| ≤ |(t : ℚ)| / 2 ^ 53 ∧ (|t| < 2 ^ 53 → vt = t)) := by
  have hnat : ∀ x : ℕ, |float64 (x : ℚ) - x| ≤ (x : ℚ) / 2 ^ 53 ∧
      (x < 2 ^ 53 → float64 (x : ℚ) = x) := by
    intro x
    refine ⟨?_, float64_natCast_exact x⟩
    have := float64_abs_sub_le (x : ℚ)
    rwa [abs_of_nonneg (Nat.cast_nonneg x : (0 : ℚ) ≤ x)] at this
  refine ⟨_, _, _, _, _, _, _, Collect_eq _ _, rfl, ?_, rfl, hnat a, hnat s, hnat i, ?_,
    hnat n2, float64_abs_sub_le _, float64_intCast_exact t⟩
  · intro m hm
    simp only [List.mem_cons, List.mem_singleton, List.mem_nil_iff, or_false] at hm
    rcases hm with rfl | rfl | rfl | rfl | rfl | rfl <;> rfl
  · intro hn1 hc
    refine ⟨?_, loadFactor_of_dvd n1 c hn1 hc c.pos⟩
    show |float64Div (float64 (n1 : ℚ)) (float64 ((c : ℕ) : ℚ)) - (n1 : ℚ) / (c : ℕ)| ≤ _
    rw [loadFactor_eq n1 c hn1 hc]
    have := float64_abs_sub_le ((n1 : ℚ) / (c : ℕ))
    rwa [abs_of_nonneg (div_nonneg (Nat.cast_nonneg n1) (Nat.cast_nonneg (c : ℕ)) :
      (0 : ℚ) ≤ (n1 : ℚ) / (c : ℕ))] at this

/-- The amended C1 at a scrape of 56 goroutines on 4 CPUs: the load factor is 14. -/
theorem Collect_emits_six_gauge_samples_witness :
    ∃ (vl : ℚ) (ms : List Metric),
      NewServiceMetricsCollector.Collect
        { memStats := { HeapAlloc := 4096, HeapSys := 65536, HeapIdle := 8192 },
          NumGoroutine1 := 56, NumCPU := 4, NumGoroutine2 := 56, Unix := 1700000000 } [] =
        .ok ([] ++ ms) ∧
      (ms.map (fun m => (m.desc.fqName, m.val)))[3]? = some ("system_load_factor", vl) ∧
      vl = 14 := by
  obtain ⟨va, vs, vi, vl, vn, vt, ms, hms, _, _, hmap, _, _, _, hl, _, _⟩ :=
    Collect_emits_six_gauge_samples 4096 65536 8192 56 56 4 1700000000 []
  have hv : vl = ((56 : ℕ) : ℚ) / ((4 : ℕ+) : ℕ) := (hl (by norm_num) (by norm_num)).2 (by decide)
  refine ⟨vl, ms, hms, ?_, ?_⟩
  · have := congrArg (List.map (fun x : String × List (String × String) × ℚ => (x.1, x.2.2))) hmap
    simp only [List.map_map] at this
    have h2 : (List.map (fun m : Metric => (m.desc.fqName, m.val)) ms) =
        List.map ((fun x : String × List (String × String) × ℚ => (x.1, x.2.2)) ∘
          fun m : Metric => (m.desc.fqName, m.desc.variableLabels.zip m.labelValues, m.val)) ms :=
      rfl
    rw [h2, this]
    rfl
  · rw [hv]; norm_num

/-- C1 fails as stated.  First, the goroutine count is read twice: with 56 goroutines at the
first read and 57 at the second, on 4 CPUs, the load factor is 14 and the goroutine count
57, so no single count `n` gives both samples.  Second, the load factor is a `float64`:
with 4 goroutines on 3 CPUs it is not 4 / 3. -/
theorem Collect_emits_six_gauge_samples_counterexample :
    (∃ ms : List Metric,
      NewServiceMetricsCollector.Collect
        { memStats := { HeapAlloc := 4096, HeapSys := 65536, HeapIdle := 8192 },
          NumGoroutine1 := 56, NumCPU := 4, NumGoroutine2 := 57, Unix := 1700000000 } [] =
        .ok ms ∧
      ms.map (fun m => (m.desc.fqName, m.val)) =
        [ ("system_memory_usage_bytes", 4096), ("system_memory_usage_bytes", 65536),
          ("system_memory_usage_bytes", 8192), ("system_load_factor", 14),
          ("system_goroutines_count", 57), ("last_processed_timestamp", 1700000000) ] ∧
      ¬ ∃ n : ℕ, (14 : ℚ) = (n : ℚ) / 4 ∧ (57 : ℚ) = n) ∧
    (∃ ms : List Metric,
      NewServiceMetricsCollector.Collect
        { memStats := { HeapAlloc := 4096, HeapSys := 65536, HeapIdle := 8192 },
          NumGoroutine1 := 4, NumCPU := 3, NumGoroutine2 := 4, Unix := 1700000000 } [] =
        .ok ms ∧
      (ms.map (fun m => (m.desc.fqName, m.val)))[3]? =
        some ("system_load_factor", 6004799503160661 / 4503599627370496) ∧
      (6004799503160661 / 4503599627370496 : ℚ) ≠ 4 / 3) := by
  have e4096 : float64 ((4096 : ℕ) : ℚ) = (4096 : ℕ) := float64_natCast_exact _ (by norm_num)
  have e65536 : float64 ((65536 : ℕ) : ℚ) = (65536 : ℕ) := float64_natCast_exact _ (by norm_num)
  have e8192 : float64 ((8192 : ℕ) : ℚ) = (8192 : ℕ) := float64_natCast_exact _ (by norm_num)
  have e57 : float64 ((57 : ℕ) : ℚ) = (57 : ℕ) := float64_natCast_exact _ (by norm_num)
  have et : float64 ((1700000000 : ℤ) : ℚ) = (1700000000 : ℤ) :=
    float64_intCast_exact _ (by norm_num)
  have el : float64Div (float64 ((56 : ℕ) : ℚ)) (float64 ((4 : ℕ) : ℚ)) =
      ((56 : ℕ) : ℚ) / (4 : ℕ) :=
    loadFactor_of_dvd 56 4 (by norm_num) (by norm_num) (by norm_num) (by decide)
  have el3 : float64Div (float64 ((4 : ℕ) : ℚ)) (float64 ((3 : ℕ) : ℚ)) =
      6004799503160661 / 4503599627370496 := by
    rw [loadFactor_eq 4 3 (by norm_num) (by norm_num)]
    have : ((4 : ℕ) : ℚ) / ((3 : ℕ) : ℚ) = 4 / 3 := by norm_num
    rw [this, float64_four_thirds]
  refine ⟨⟨_, Collect_eq _ [], ?_, ?_⟩, ⟨_, Collect_eq _ [], ?_, by norm_num⟩⟩
  · simp only [List.nil_append, List.map_cons, List.map_nil, NewServiceMetricsCollector, NewDesc]
    have hc4 : (((4 : ℕ+) : ℕ) : ℚ) = ((4 : ℕ) : ℚ) := rfl
    rw [hc4, e4096, e65536, e8192, e57, et, el]
    norm_num
  · rintro ⟨n, h1, h2⟩
    rw [← h2] at h1
    norm_num at h1
  · simp only [List.nil_append, List.map_cons, List.map_nil, NewServiceMetricsCollector, NewDesc]
    have hc3 : (((3 : ℕ+) : ℕ) : ℚ) = ((3 : ℕ) : ℚ) := rfl
    rw [hc3, el3]
    rfl

/-- C2: for every runtime state, the descriptors carried by the samples that `Collect`
sends are exactly the descriptors that `Describe` sends: every sample carries a
descriptor sent by `Describe`, and every descriptor sent by `Describe` has a sample. -/
theorem Collect_descriptors_eq_Describe (rt : RuntimeState) :
    ∃ ms : List Metric,
      NewServiceMetricsCollector.Collect rt [] = .ok ms ∧
      (∀ m ∈ ms, m.desc ∈ NewServiceMetricsCollector.Describe []) ∧
      (∀ d ∈ NewServiceMetricsCollector.Describe [], ∃ m ∈ ms, m.desc = d) := by
  refine ⟨_, Collect_eq rt [], ?_, ?_⟩
  · intro m hm
    simp only [List.nil_append, List.mem_cons, List.mem_singleton, List.mem_nil_iff,
      or_false] at hm
    rcases hm with rfl | rfl | rfl | rfl | rfl | rfl <;>
      simp [ServiceMetricsCollector.Describe]
  · intro d hd
    simp only [ServiceMetricsCollector.Describe, List.nil_append, List.cons_append,
      List.mem_cons, List.mem_singleton, List.mem_nil_iff, or_false] at hd
    rcases hd with rfl | rfl | rfl | rfl <;> simp

/-- C3, as the code has it: for every runtime state whose Unix time is not negative,
each value of the samples that `Collect` sends is non-negative. -/
theorem Collect_values_nonneg (rt : RuntimeState) (ht : 0 ≤ rt.Unix) :
    ∃ ms : List Metric,
      NewServiceMetricsCollector.Collect rt [] = .ok ms ∧ ∀ m ∈ ms, 0 ≤ m.val := by
  refine ⟨_, Collect_eq rt [], ?_⟩
  have hn : (0 : ℚ) ≤ float64 rt.NumGoroutine1 := float64_nonneg (Nat.cast_nonneg _)
  have hc : (0 : ℚ) ≤ float64 ((rt.NumCPU : ℕ) : ℚ) := float64_nonneg (Nat.cast_nonneg _)
  have hT : (0 : ℚ) ≤ float64 rt.Unix := float64_nonneg (by exact_mod_cast ht)
  intro m hm
  simp only [List.nil_append, List.mem_cons, List.mem_singleton, List.mem_nil_iff,
    or_false] at hm
  rcases hm with rfl | rfl | rfl | rfl | rfl | rfl
  · exact float64_nonneg (Nat.cast_nonneg _)
  · exact float64_nonneg (Nat.cast_nonneg _)
  · exact float64_nonneg (Nat.cast_nonneg _)
  · exact float64_nonneg (div_nonneg hn hc)
  · exact float64_nonneg (Nat.cast_nonneg _)
  · exact hT

/-- The amended C3 at a concrete runtime state. -/
theorem Collect_values_nonneg_witness :
    (0 : ℤ) ≤ 1700000000 ∧
    ∃ ms : List Metric,
      NewServiceMetricsCollector.Collect
        { memStats := { HeapAlloc := 4096, HeapSys := 65536, HeapIdle := 8192 },
          NumGoroutine1 := 4, NumCPU := 3, NumGoroutine2 := 4, Unix := 1700000000 } [] = .ok ms ∧
      ∀ m ∈ ms, 0 ≤ m.val :=
  ⟨by decide, Collect_values_nonneg _ (by decide)⟩

/-- C3 fails as stated: with the wall clock one second before 1970 the sample
`last_processed_timestamp` is negative. -/
theorem Collect_values_nonneg_counterexample :
    ∃ ms : List Metric,
      NewServiceMetricsCollector.Collect
        { memStats := { HeapAlloc := 4096, HeapSys := 65536, HeapIdle := 8192 },
          NumGoroutine1 := 4, NumCPU := 3, NumGoroutine2 := 4, Unix := -1 } [] = .ok ms ∧
      ∃ m ∈ ms, m.desc.fqName = "last_processed_timestamp" ∧ m.val = -1 ∧ m.val < 0 := by
  have h1 : float64 ((-1 : ℤ) : ℚ) = ((-1 : ℤ) : ℚ) :=
    float64_intCast_exact (-1) (by norm_num)
  refine ⟨_, Collect_eq _ [],
    { desc := NewServiceMetricsCollector.lastProcessedDesc, valType := .GaugeValue,
      val := float64 ((-1 : ℤ) : ℚ), labelValues := [] }, ?_, rfl, ?_, ?_⟩
  · simp
  · simp only [h1]; norm_num
  · simp only [h1]; norm_num

/-- C4: for the collector built by `NewServiceMetricsCollector`, every call of `Describe`
sends exactly four descriptors, with pairwise distinct names: `system_load_factor` with
the single label name `component`, `system_memory_usage_bytes` with the single label name
`type`, and `last_processed_timestamp` and `system_goroutines_count` without labels. -/
theorem Describe_emits_four_descriptors (ch : List Desc) :
    ∃ ds : List Desc,
      NewServiceMetricsCollector.Describe ch = ch ++ ds ∧
      ds.length = 4 ∧
      (ds.map Desc.fqName).Nodup ∧
      ds.map (fun d => (d.fqName, d.variableLabels)) =
        [ ("system_load_factor", ["component"]),
          ("system_memory_usage_bytes", ["type"]),
          ("last_processed_timestamp", []),
          ("system_goroutines_count", []) ] := by
  refine ⟨[NewServiceMetricsCollector.systemLoadDesc, NewServiceMetricsCollector.memoryUsageDesc,
    NewServiceMetricsCollector.lastProcessedDesc, NewServiceMetricsCollector.goroutinesDesc],
    ?_, rfl, ?_, rfl⟩
  · simp [ServiceMetricsCollector.Describe]
  · decide

/-- C5, as the code has it: for every `k`, a run of `k` iterations of the simulator loop
in which all launched requests complete exists, and after any such run, whatever the
interleaving, the request counter holds no label combination when `k = 0` and otherwise
exactly the three combinations (GET, /users, 200), (POST, /login, 200) and
(GET, /metrics, 200); each combination it holds has the value `k`, the total is `3 * k`,
and every combination has the status 200. -/
theorem simulator_request_counter (k : ℕ) :
    (∃ evs s, State.init.run evs = some s ∧ launches evs = simulatorLoop k ∧ s.allReturned) ∧
    ∀ evs s, State.init.run evs = some s → launches evs = simulatorLoop k → s.allReturned →
      s.instruments.requestCounter.children.Perm (if k = 0 then [] else simulatorLabels) ∧
      (∀ L ∈ s.instruments.requestCounter.children,
        s.instruments.requestCounter.value L = k) ∧
      s.instruments.requestCounter.total = 3 * k ∧
      (∀ L ∈ s.instruments.requestCounter.children, L[2]? = some "200") := by
  constructor
  · obtain ⟨s, hrun, hdone⟩ :=
      State.run_sequentialSchedule (simulatorLoop k) Inv.init (by intro g hg; simp [State.init] at hg)
    exact ⟨_, s, hrun, launches_sequentialSchedule _ _, hdone⟩
  · intro evs s hrun hl hdone
    obtain ⟨h1, h2, h3⟩ := counter_of_completed_run hrun hl hdone
    refine ⟨h1, h2, h3, ?_⟩
    intro L hL
    have hL2 := h1.subset hL
    split_ifs at hL2 with hk
    · simp at hL2
    · simp only [simulatorLabels, List.mem_cons, List.mem_singleton, List.mem_nil_iff,
        or_false] at hL2
      rcases hL2 with rfl | rfl | rfl <;> rfl

/-- The amended C5 at one tick whose three requests overlap: three label combinations,
total 3. -/
theorem simulator_request_counter_witness :
    ∃ s, State.init.run overlappingTick = some s ∧
      launches overlappingTick = simulatorLoop 1 ∧ s.allReturned ∧
      s.instruments.requestCounter.children.Perm simulatorLabels ∧
      s.instruments.requestCounter.total = 3 :=
  have hrun : State.init.run overlappingTick =
      some ((State.init.run overlappingTick).getD State.init) := rfl
  have hdone : ((State.init.run overlappingTick).getD State.init).allReturned := by decide
  have h := (simulator_request_counter 1).2 overlappingTick _ hrun rfl hdone
  ⟨_, hrun, rfl, hdone, h.1, h.2.2.1⟩

/-- C5 fails as stated for `k = 0`: after zero iterations of the simulator loop the
request counter holds no label combination, not three. -/
theorem simulator_request_counter_counterexample :
    ∃ evs s, State.init.run evs = some s ∧ launches evs = simulatorLoop 0 ∧ s.allReturned ∧
      s.instruments.requestCounter.children = [] ∧
      ¬ s.instruments.requestCounter.children.Perm simulatorLabels :=
  ⟨[], State.init, rfl, rfl, by decide, rfl, by
    intro h
    have := h.length_eq
    simp [State.init, freshInstruments, requestCounter, NewCounterVec, simulatorLabels] at this⟩

/-- C6: in every state reachable from program start by any interleaving of executions
of `handleRequest`, the concurrent-request gauge equals the number of executions that
have started (performed their first operation, the increment of the gauge) and not yet
returned; hence it is never negative, and it is 0 when all executions have returned. -/
theorem gauge_eq_inFlight (evs : List Event) (s : State)
    (hrun : State.init.run evs = some s) :
    s.instruments.concurrentRequests.value = (s.inFlight : ℤ) ∧
    0 ≤ s.instruments.concurrentRequests.value ∧
    (s.allReturned → s.instruments.concurrentRequests.value = 0) := by
  have hinv := Inv.of_run hrun
  refine ⟨hinv.gauge, ?_, ?_⟩
  · rw [hinv.gauge]; exact Int.natCast_nonneg _
  · intro hdone
    rw [hinv.gauge, State.inFlight]
    have : s.goroutines.countP Goroutine.inFlight = 0 := by
      rw [List.countP_eq_zero]
      intro g hg
      have := hdone g hg
      simp [Goroutine.inFlight, this]
    simp [this]

/-- C6 in the middle of a tick: of two launched requests one has started, and the gauge
is 1. -/
theorem gauge_eq_inFlight_witness :
    ∃ s, State.init.run midTick = some s ∧
      s.instruments.concurrentRequests.value = (s.inFlight : ℤ) ∧ s.inFlight = 1 :=
  have hrun : State.init.run midTick = some ((State.init.run midTick).getD State.init) := rfl
  ⟨_, hrun, (gauge_eq_inFlight midTick _ hrun).1, by decide⟩

/-- C7, as the code has it: the metric-family names of the four owners that `main`
registers are pairwise distinct, so none of the four registrations fails with a
duplicate-name error and the registry holds the four owners.  In every reachable state a
gather is the six samples of the collector, then one sample of the request counter per
label combination created so far, then the one sample of the gauge, then one sample of the
latency histogram per label combination created so far.  So the collector and the gauge
always appear in a gather, and the request counter and the latency histogram appear
exactly when they have a label combination. -/
theorem main_registrations_succeed (evs : List Event) (st : State) (rt : RuntimeState)
    (hrun : State.init.run evs = some st) :
    ownerNames mainOwners =
      [ "system_load_factor", "system_memory_usage_bytes", "last_processed_timestamp",
        "system_goroutines_count", "app_requests_total", "app_concurrent_requests",
        "app_request_duration_seconds" ] ∧
    (ownerNames mainOwners).Nodup ∧
    mainRegistry = .ok { owners := mainOwners } ∧
    ∃ (reg : Registry) (ms : List Metric),
      mainRegistry = .ok reg ∧
      NewServiceMetricsCollector.Collect rt [] = .ok ms ∧
      reg.gatherAll { rt := rt, instruments := st.instruments } =
        ms.map Sample.const ++
        st.instruments.requestCounter.children.map (fun L =>
          Sample.const { desc := requestCounter.desc, valType := .CounterValue,
                         val := st.instruments.requestCounter.value L, labelValues := L }) ++
        [Sample.const { desc := concurrentRequests.desc, valType := .GaugeValue,
                        val := st.instruments.concurrentRequests.value, labelValues := [] }] ++
        st.instruments.requestDuration.children.map (fun L =>
          Sample.histogram requestDuration.desc L
            (st.instruments.requestDuration.observations L)) ∧
      (reg.gatherAll { rt := rt, instruments := st.instruments }).map
          (fun x => x.desc.fqName) =
        [ "system_memory_usage_bytes", "system_memory_usage_bytes",
          "system_memory_usage_bytes", "system_load_factor", "system_goroutines_count",
          "last_processed_timestamp" ] ++
        st.instruments.requestCounter.children.map (fun _ => "app_requests_total") ++
        ["app_concurrent_requests"] ++
        st.instruments.requestDuration.children.map
          (fun _ => "app_request_duration_seconds") ∧
      ((∃ x ∈ reg.gatherAll { rt := rt, instruments := st.instruments },
          x.desc.fqName = "app_requests_total") ↔
        st.instruments.requestCounter.children ≠ []) ∧
      ((∃ x ∈ reg.gatherAll { rt := rt, instruments := st.instruments },
          x.desc.fqName = "app_request_duration_seconds") ↔
        st.instruments.requestDuration.children ≠ []) := by
  have hinv := Inv.of_run hrun
  have hgd : st.instruments.concurrentRequests.desc = concurrentRequests.desc :=
    State.run_gaugeDesc evs hrun
  obtain ⟨ms, hms, hnames, hgather⟩ := gatherAll_main rt st.instruments
  rw [hinv.counterDesc, hinv.histogramDesc, hgd] at hgather
  have hmapnames : (Registry.gatherAll { owners := mainOwners }
      { rt := rt, instruments := st.instruments }).map (fun x => x.desc.fqName) =
      [ "system_memory_usage_bytes", "system_memory_usage_bytes",
        "system_memory_usage_bytes", "system_load_factor", "system_goroutines_count",
        "last_processed_timestamp" ] ++
      st.instruments.requestCounter.children.map (fun _ => "app_requests_total") ++
      ["app_concurrent_requests"] ++
      st.instruments.requestDuration.children.map
        (fun _ => "app_request_duration_seconds") := by
    rw [hgather, ← hnames]
    simp only [List.map_append, List.map_map, List.map_cons, List.map_nil]
    rfl
  have hmem : ∀ name : String,
      (∃ x ∈ Registry.gatherAll { owners := mainOwners }
        { rt := rt, instruments := st.instruments }, x.desc.fqName = name) ↔
      name ∈ (Registry.gatherAll { owners := mainOwners }
        { rt := rt, instruments := st.instruments }).map (fun x => x.desc.fqName) := by
    intro name
    rw [List.mem_map]
  refine ⟨rfl, by decide, rfl, { owners := mainOwners }, ms, rfl, hms, hgather, hmapnames,
    ?_, ?_⟩
  · rw [hmem, hmapnames]
    cases st.instruments.requestCounter.children with
    | nil =>
      simp only [List.map_nil, List.append_nil, ne_eq, not_true_eq_false, iff_false]
      intro h
      simp only [List.mem_append, List.mem_cons, List.mem_singleton, List.mem_nil_iff,
        List.mem_map] at h
      revert h
      simp
    | cons L Ls => simp
  · rw [hmem, hmapnames]
    cases st.instruments.requestDuration.children with
    | nil =>
      simp only [List.map_nil, List.append_nil, ne_eq, not_true_eq_false, iff_false]
      intro h
      simp only [List.mem_append, List.mem_cons, List.mem_singleton, List.mem_nil_iff,
        List.mem_map] at h
      revert h
      simp
    | cons L Ls => simp

/-- The amended C7 after one tick of the simulator: the request counter appears in the
gather. -/
theorem main_registrations_succeed_witness :
    ∃ (st : State) (reg : Registry),
      State.init.run overlappingTick = some st ∧ mainRegistry = .ok reg ∧
      ∃ x ∈ reg.gatherAll
          { rt := { memStats := { HeapAlloc := 4096, HeapSys := 65536, HeapIdle := 8192 },
                    NumGoroutine1 := 56, NumCPU := 4, NumGoroutine2 := 57,
                    Unix := 1700000000 },
            instruments := st.instruments },
        x.desc.fqName = "app_requests_total" := by
  have hrun : State.init.run overlappingTick =
      some ((State.init.run overlappingTick).getD State.init) := rfl
  obtain ⟨_, _, _, reg, ms, hreg, _, _, _, hc, _⟩ := main_registrations_succeed overlappingTick _
    { memStats := { HeapAlloc := 4096, HeapSys := 65536, HeapIdle := 8192 },
      NumGoroutine1 := 56, NumCPU := 4, NumGoroutine2 := 57, Unix := 1700000000 } hrun
  exact ⟨_, reg, hrun, hreg, hc.2 (by decide)⟩

/-- C7 fails as stated: not all four owners appear in a gather.  Right after the
registrations of `main`, with the instruments fresh, a gather holds the six samples of
the collector and the sample of the gauge, and no sample of the request counter or of
the latency histogram. -/
theorem main_registrations_succeed_counterexample :
    ∃ reg : Registry, mainRegistry = .ok reg ∧
      (reg.gatherAll
          { rt := { memStats := { HeapAlloc := 4096, HeapSys := 65536, HeapIdle := 8192 },
                    NumGoroutine1 := 56, NumCPU := 4, NumGoroutine2 := 57,
                    Unix := 1700000000 },
            instruments := freshInstruments }).map (fun x => x.desc.fqName) =
        [ "system_memory_usage_bytes", "system_memory_usage_bytes",
          "system_memory_usage_bytes", "system_load_factor", "system_goroutines_count",
          "last_processed_timestamp", "app_concurrent_requests" ] ∧
      (¬ ∃ x ∈ reg.gatherAll
          { rt := { memStats := { HeapAlloc := 4096, HeapSys := 65536, HeapIdle := 8192 },
                    NumGoroutine1 := 56, NumCPU := 4, NumGoroutine2 := 57,
                    Unix := 1700000000 },
            instruments := freshInstruments }, x.desc.fqName = "app_requests_total") ∧
      (¬ ∃ x ∈ reg.gatherAll
          { rt := { memStats := { HeapAlloc := 4096, HeapSys := 65536, HeapIdle := 8192 },
                    NumGoroutine1 := 56, NumCPU := 4, NumGoroutine2 := 57,
                    Unix := 1700000000 },
            instruments := freshInstruments },
          x.desc.fqName = "app_request_duration_seconds") := by
  obtain ⟨ms, hms, hnames, hgather⟩ := gatherAll_main
    { memStats := { HeapAlloc := 4096, HeapSys := 65536, HeapIdle := 8192 },
      NumGoroutine1 := 56, NumCPU := 4, NumGoroutine2 := 57, Unix := 1700000000 }
    freshInstruments
  have hfresh : Registry.gatherAll { owners := mainOwners }
      { rt := { memStats := { HeapAlloc := 4096, HeapSys := 65536, HeapIdle := 8192 },
                NumGoroutine1 := 56, NumCPU := 4, NumGoroutine2 := 57, Unix := 1700000000 },
        instruments := freshInstruments } =
      ms.map Sample.const ++
        [Sample.const { desc := concurrentRequests.desc, valType := .GaugeValue,
                        val := ((0 : ℤ) : ℚ), labelValues := [] }] := by
    rw [hgather]
    simp [freshInstruments, requestCounter, NewCounterVec, requestDuration, NewHistogramVec,
      concurrentRequests, NewGauge]
  have hmap : (Registry.gatherAll { owners := mainOwners }
      { rt := { memStats := { HeapAlloc := 4096, HeapSys := 65536, HeapIdle := 8192 },
                NumGoroutine1 := 56, NumCPU := 4, NumGoroutine2 := 57, Unix := 1700000000 },
        instruments := freshInstruments }).map (fun x => x.desc.fqName) =
      [ "system_memory_usage_bytes", "system_memory_usage_bytes",
        "system_memory_usage_bytes", "system_load_factor", "system_goroutines_count",
        "last_processed_timestamp", "app_concurrent_requests" ] := by
    rw [hfresh, List.map_append, List.map_map]
    have : (fun x : Sample => x.desc.fqName) ∘ Sample.const = fun m : Metric => m.desc.fqName :=
      rfl
    rw [this, hnames]
    rfl
  refine ⟨{ owners := mainOwners }, rfl, hmap, ?_, ?_⟩
  · rintro ⟨x, hx, hname⟩
    have : "app_requests_total" ∈ (Registry.gatherAll
        { owners := mainOwners }
        { rt := { memStats := { HeapAlloc := 4096, HeapSys := 65536, HeapIdle := 8192 },
                  NumGoroutine1 := 56, NumCPU := 4, NumGoroutine2 := 57, Unix := 1700000000 },
          instruments := freshInstruments }).map (fun x => x.desc.fqName) :=
      List.mem_map.2 ⟨x, hx, hname⟩
    rw [hmap] at this
    revert this
    decide
  · rintro ⟨x, hx, hname⟩
    have : "app_request_duration_seconds" ∈ (Registry.gatherAll
        { owners := mainOwners }
        { rt := { memStats := { HeapAlloc := 4096, HeapSys := 65536, HeapIdle := 8192 },
                  NumGoroutine1 := 56, NumCPU := 4, NumGoroutine2 := 57, Unix := 1700000000 },
          instruments := freshInstruments }).map (fun x => x.desc.fqName) :=
      List.mem_map.2 ⟨x, hx, hname⟩
    rw [hmap] at this
    revert this
    decide

/-- C8: every sample the program produces supplies exactly as many label values as its
descriptor has label names: each of the six constant metrics of `Collect`, and the label
values `handleRequest` passes to the request counter (three label names) and to the
latency histogram (two label names), for every method and endpoint; so in every
reachable state no operation of `handleRequest` panics. -/
theorem label_values_match_label_names (rt : RuntimeState) (ch : List Metric)
    (method endpoint : String) (r : ℕ) (elapsed : Duration) (evs : List Event) (s : State)
    (hrun : State.init.run evs = some s) :
    (∃ ms, NewServiceMetricsCollector.Collect rt ch = .ok (ch ++ ms) ∧ ms.length = 6 ∧
      ∀ m ∈ ms, m.labelValues.length = m.desc.variableLabels.length) ∧
    [method, endpoint, "200"].length = requestCounter.desc.variableLabels.length ∧
    [method, endpoint].length = requestDuration.desc.variableLabels.length ∧
    (∀ op ∈ effects (handleRequest method endpoint r elapsed) [],
      ∃ ins, s.instruments.apply op = .ok ins) := by
  refine ⟨⟨_, Collect_eq rt ch, rfl, ?_⟩, rfl, rfl, ?_⟩
  · intro m hm
    simp only [List.mem_cons, List.mem_singleton, List.mem_nil_iff, or_false] at hm
    rcases hm with rfl | rfl | rfl | rfl | rfl | rfl <;> rfl
  · have hinv := Inv.of_run hrun
    exact apply_handleRequest_ok s.instruments hinv.counterDesc hinv.histogramDesc
      method endpoint r elapsed

/-- C8 in the middle of a tick, for a third request. -/
theorem label_values_match_label_names_witness :
    ∃ s, State.init.run midTick = some s ∧
      ∀ op ∈ effects (handleRequest "GET" "/metrics" 0 100000000) [],
        ∃ ins, s.instruments.apply op = .ok ins :=
  have hrun : State.init.run midTick = some ((State.init.run midTick).getD State.init) := rfl
  ⟨_, hrun,
    (label_values_match_label_names
      { memStats := { HeapAlloc := 4096, HeapSys := 65536, HeapIdle := 8192 },
        NumGoroutine1 := 4, NumCPU := 3, NumGoroutine2 := 4, Unix := 1700000000 } []
      "GET" "/metrics" 0 100000000 midTick _ hrun).2.2.2⟩

/-- C9: for every value `r` that `rand.Intn(900)` can return, `handleRequest` sleeps once,
for `100 + r` milliseconds, which lies between 100 ms and 999 ms inclusive (and fits an
`int64`); both end points are attained, for `r = 0` and `r = 899`. -/
theorem sleep_duration_in_range (method endpoint : String) (r : ℕ) (elapsed : Duration)
    (hr : r < 900) :
    sleeps (effects (handleRequest method endpoint r elapsed) []) =
      [(100 + (r : ℤ)) * Millisecond] ∧
    100 * Millisecond ≤ (100 + (r : ℤ)) * Millisecond ∧
    (100 + (r : ℤ)) * Millisecond ≤ 999 * Millisecond ∧
    (100 + (r : ℤ)) * Millisecond < 2 ^ 63 ∧
    sleeps (effects (handleRequest method endpoint 0 elapsed) []) = [100 * Millisecond] ∧
    sleeps (effects (handleRequest method endpoint 899 elapsed) []) = [999 * Millisecond] := by
  have hr2 : (r : ℤ) < 900 := by exact_mod_cast hr
  refine ⟨?_, ?_, ?_, ?_, ?_, ?_⟩
  · simp only [handleRequest, effects, sleeps, sleepDuration]
    congr 1
    push_cast
    ring
  · show (100 : ℤ) * 1000000 ≤ (100 + (r : ℤ)) * 1000000
    omega
  · show (100 + (r : ℤ)) * 1000000 ≤ (999 : ℤ) * 1000000
    omega
  · show (100 + (r : ℤ)) * 1000000 < (2 : ℤ) ^ 63
    have h63 : (2 : ℤ) ^ 63 = 9223372036854775808 := by norm_num
    rw [h63]
    omega
  · simp [handleRequest, effects, sleeps, sleepDuration, Millisecond]
  · simp [handleRequest, effects, sleeps, sleepDuration, Millisecond]

/-- C9 for `r = 450`. -/
theorem sleep_duration_in_range_witness :
    (450 : ℕ) < 900 ∧
    sleeps (effects (handleRequest "POST" "/login" 450 550000000) []) =
      [(100 + ((450 : ℕ) : ℤ)) * Millisecond] :=
  ⟨by decide, (sleep_duration_in_range "POST" "/login" 450 550000000 (by decide)).1⟩

/-- C10, as the code has it: for every method and endpoint, one execution of
`handleRequest` performs, in this order: the increment of the concurrent-request gauge,
the sleep, the lookup and the increment of the request counter at
(method, endpoint, 200), the lookup and the observation of the latency histogram at
(method, endpoint), and last, on return, the deferred decrement of the gauge. -/
theorem handleRequest_effects (method endpoint : String) (r : ℕ) (elapsed : Duration) :
    effects (handleRequest method endpoint r elapsed) [] =
      [ .concurrentRequests_Inc,
        .Sleep ((100 + (r : ℤ)) * Millisecond),
        .requestCounter_WithLabelValues [method, endpoint, "200"],
        .requestCounter_Inc [method, endpoint, "200"],
        .requestDuration_WithLabelValues [method, endpoint],
        .requestDuration_Observe [method, endpoint] (Seconds elapsed),
        .concurrentRequests_Dec ] := by
  simp only [handleRequest, effects, sleepDuration]
  congr 3
  push_cast
  ring

/-- C10 fails as stated: the gauge is not decremented before the counter is incremented.
The operations of `handleRequest("GET", "/users")` are not in the claimed order: the
third is the lookup of the counter child, and the decrement of the gauge is the last. -/
theorem handleRequest_effects_counterexample :
    effects (handleRequest "GET" "/users" 0 100000000) [] ≠
      [ .concurrentRequests_Inc,
        .Sleep (100 * Millisecond),
        .concurrentRequests_Dec,
        .requestCounter_WithLabelValues ["GET", "/users", "200"],
        .requestCounter_Inc ["GET", "/users", "200"],
        .requestDuration_WithLabelValues ["GET", "/users"],
        .requestDuration_Observe ["GET", "/users"] (Seconds 100000000) ] ∧
    (effects (handleRequest "GET" "/users" 0 100000000) [])[3]? =
      some (.requestCounter_Inc ["GET", "/users", "200"]) ∧
    (effects (handleRequest "GET" "/users" 0 100000000) [])[6]? =
      some .concurrentRequests_Dec ∧
    (effects (handleRequest "GET" "/users" 0 100000000) []).count .concurrentRequests_Dec = 1 := by
  refine ⟨?_, rfl, rfl, ?_⟩
  · simp [handleRequest, effects]
  · simp [handleRequest, effects]

end PrometheusDemo
